import Mathlib

/-!
Verification development for the kevs_vm compiler-plus-VM core
(src/kevs_vm/src/main.rs): a shallow embedding of the value model, the
instruction set, the interpreter loop and the compiler, together with
theorems settling the frozen claims about that code.

Modelling conventions:
* `Register` (`u8` in the source) is modelled as `Nat`; register-file
  indices in the source are always in `u8` range, and no claim concerns
  wrap-around, so theorems that involve cursor subtraction carry explicit
  lower-bound hypotheses instead of modelling mod-256 arithmetic.
* `LiteralInteger` (`i16`) is modelled as `Int`; the i16 range limit is a
  parse-time encoding restriction of the front end, outside this core.
* The `f64` payload of `Data::Number` is modelled as an exact rational:
  the normalised-fraction type `Q` below (a reduced `Int` numerator over
  a positive `Nat` denominator, every operation renormalising, so that
  structural equality of `Q` values coincides with numeric equality the
  way each `f64` value has one canonical representation).  Every claim
  under verification concerns values produced by integer literals and
  the operations `+ - * / ^`, comparisons and lengths; none depends on
  rounding, NaN, infinities or signed zero.  `f64::powf` is modelled on
  integer exponents (`qpowf`), and division by zero yields `0` where
  `f64` would give an infinity; no claim exercises either corner.  The
  agreement of `Q`'s operations with Mathlib's `ℚ` is proved below
  (`Q.toRat_add` and companions).
* `RefCell<Vec<Data>>` carries no `Rc` in the source, so every `clone()`
  of an array (register copies, constant loads, `Add`) deep-copies the
  vector; plain `List Data` with value semantics is therefore the exact
  model of the source's array payloads.
* Console output of `Print`/`Println` is outside the model: the two
  builtins write only to stdout (they touch no register), and no claim
  mentions their output, so they are modelled as register-file
  identities.
* Rust `panic!` (a fatal error that halts the run) is modelled as
  `Except.error` carrying the source's panic message.
-/

namespace KevsVM

/-- An exact rational: reduced numerator over positive denominator.  All
operations renormalise, so structural equality coincides with numeric
equality (see `Q.toRat` and the homomorphism lemmas below). -/
structure Q where
  num : Int
  den : Nat
deriving DecidableEq, Repr

/-- Normalising constructor: divide out the gcd (a zero denominator,
which no source-reachable value has, collapses to `0`). -/
def qnorm (n : Int) (d : Nat) : Q :=
  if d = 0 then ⟨0, 1⟩
  else
    let g := Nat.gcd n.natAbs d
    ⟨n.tdiv g, d / g⟩

/-- Embed an integer. -/
def Q.ofInt (n : Int) : Q := ⟨n, 1⟩

/-- Embed a natural number. -/
def Q.ofNat (n : Nat) : Q := ⟨n, 1⟩

/-- Addition. -/
def qadd (a b : Q) : Q := qnorm (a.num * b.den + b.num * a.den) (a.den * b.den)

/-- Subtraction. -/
def qsub (a b : Q) : Q := qnorm (a.num * b.den - b.num * a.den) (a.den * b.den)

/-- Multiplication. -/
def qmul (a b : Q) : Q := qnorm (a.num * b.num) (a.den * b.den)

/-- Division (division by zero yields `0`, a convention no claim
exercises; `f64` would give an infinity). -/
def qdiv (a b : Q) : Q := qnorm (a.num * Int.sign b.num * b.den) (a.den * b.num.natAbs)

/-- Integer power with a natural exponent. -/
def ipow (b : Int) : Nat → Int
  | 0 => 1
  | n + 1 => b * ipow b n

/-- Natural power with a natural exponent. -/
def npow (b : Nat) : Nat → Nat
  | 0 => 1
  | n + 1 => b * npow b n

/-- Reciprocal (of zero: `0`, same convention as division). -/
def qinv (a : Q) : Q :=
  if a.num = 0 then ⟨0, 1⟩ else ⟨Int.sign a.num * a.den, a.num.natAbs⟩

/-- Power with a natural exponent. -/
def qnpow (a : Q) (n : Nat) : Q := qnorm (ipow a.num n) (npow a.den n)

/-- `f64::powf` restricted to the integer exponents every claim uses
(`0` on a non-integer exponent, a corner no claim exercises). -/
def qpowf (x y : Q) : Q :=
  if y.den = 1 then
    if 0 ≤ y.num then qnpow x y.num.toNat
    else qinv (qnpow x (-y.num).toNat)
  else ⟨0, 1⟩

/-- Order comparison by cross-multiplication. -/
def qcmp (a b : Q) : Ordering :=
  if a.num * (b.den : Int) < b.num * (a.den : Int) then .lt
  else if a.num * (b.den : Int) = b.num * (a.den : Int) then .eq
  else .gt

/-- Comparison of two naturals (used for the cross-variant discriminant
order). -/
def natCmp (a b : Nat) : Ordering :=
  if a < b then .lt else if a = b then .eq else .gt

/-- Comparison of two characters (code-point order). -/
def charCmp (a b : Char) : Ordering :=
  if a < b then .lt else if a = b then .eq else .gt

/-- Comparison of two booleans (`false < true`, Rust's `bool` order). -/
def boolCmp : Bool → Bool → Ordering
  | false, false => .eq
  | false, true => .lt
  | true, false => .gt
  | true, true => .eq

/-- Runtime values: the `Data` enum of the source.  The `f64` payload is
modelled as `Q` and the `RefCell<Vec<Data>>` payload as `List Data`
(deep-copy value semantics, matching `clone()` on a `RefCell` without
`Rc`). -/
inductive Data where
  | Number (x : Q)
  | Character (c : Char)
  | Boolean (b : Bool)
  | Array (elems : List Data)

mutual

/-- Decidable structural equality on `Data` (the derived `PartialEq` of
the source, total here because `ℚ` replaces `f64`). -/
def Data.decEq : (a b : Data) → Decidable (a = b)
  | .Number x, .Number y =>
    if h : x = y then isTrue (by rw [h])
    else isFalse (by intro hc; injection hc; contradiction)
  | .Character x, .Character y =>
    if h : x = y then isTrue (by rw [h])
    else isFalse (by intro hc; injection hc; contradiction)
  | .Boolean x, .Boolean y =>
    if h : x = y then isTrue (by rw [h])
    else isFalse (by intro hc; injection hc; contradiction)
  | .Array xs, .Array ys =>
    match Data.listDecEq xs ys with
    | isTrue h => isTrue (by rw [h])
    | isFalse h => isFalse (by intro hc; injection hc; contradiction)
  | .Number _, .Character _ => isFalse (fun h => Data.noConfusion h)
  | .Number _, .Boolean _ => isFalse (fun h => Data.noConfusion h)
  | .Number _, .Array _ => isFalse (fun h => Data.noConfusion h)
  | .Character _, .Number _ => isFalse (fun h => Data.noConfusion h)
  | .Character _, .Boolean _ => isFalse (fun h => Data.noConfusion h)
  | .Character _, .Array _ => isFalse (fun h => Data.noConfusion h)
  | .Boolean _, .Number _ => isFalse (fun h => Data.noConfusion h)
  | .Boolean _, .Character _ => isFalse (fun h => Data.noConfusion h)
  | .Boolean _, .Array _ => isFalse (fun h => Data.noConfusion h)
  | .Array _, .Number _ => isFalse (fun h => Data.noConfusion h)
  | .Array _, .Character _ => isFalse (fun h => Data.noConfusion h)
  | .Array _, .Boolean _ => isFalse (fun h => Data.noConfusion h)

/-- Decidable equality of array payload lists. -/
def Data.listDecEq : (xs ys : List Data) → Decidable (xs = ys)
  | [], [] => isTrue rfl
  | [], _ :: _ => isFalse (fun h => List.noConfusion h)
  | _ :: _, [] => isFalse (fun h => List.noConfusion h)
  | x :: xs, y :: ys =>
    match Data.decEq x y, Data.listDecEq xs ys with
    | isTrue h1, isTrue h2 => isTrue (by rw [h1, h2])
    | isFalse h1, _ => isFalse (by intro hc; injection hc; contradiction)
    | isTrue _, isFalse h2 => isFalse (by intro hc; injection hc; contradiction)

end

instance : DecidableEq Data := Data.decEq

/-- Discriminant index of a `Data` constructor, in declaration order;
this is the order Rust's derived `PartialOrd` uses across variants. -/
def tagIdx : Data → Nat
  | .Number _ => 0
  | .Character _ => 1
  | .Boolean _ => 2
  | .Array _ => 3

mutual

/-- Structural comparison of two `Data` values: the derived `PartialOrd`
of the source (discriminant order across variants, payload comparison
within a variant, lexicographic on array payloads), total here because
`ℚ` replaces `f64`. -/
def dataCmp : Data → Data → Ordering
  | .Number x, .Number y => qcmp x y
  | .Character x, .Character y => charCmp x y
  | .Boolean x, .Boolean y => boolCmp x y
  | .Array xs, .Array ys => listCmp xs ys
  | x, y => natCmp (tagIdx x) (tagIdx y)

/-- Lexicographic comparison of array payloads (Rust's `Vec` ordering). -/
def listCmp : List Data → List Data → Ordering
  | [], [] => .eq
  | [], _ :: _ => .lt
  | _ :: _, [] => .gt
  | x :: xs, y :: ys =>
    match dataCmp x y with
    | .eq => listCmp xs ys
    | o => o

end

/-- `f64 as usize` on a nonnegative value truncates the fraction; on a
negative value it saturates to zero. -/
def asUsize (q : Q) : Nat := if q.num < 0 then 0 else (q.num.tdiv q.den).toNat

abbrev Register := Nat
abbrev LiteralInteger := Int

/-- The instruction set (`Opcode` enum of the source). -/
inductive Opcode where
  | Add (dest in1 in2 : Register)
  | Subtract (dest in1 in2 : Register)
  | Multiply (dest in1 in2 : Register)
  | Divide (dest in1 in2 : Register)
  | Power (dest in1 in2 : Register)
  | LoadLiteral (dest : Register) (value : LiteralInteger)
  | CopyRegister (dest copy_from : Register)
  | SysCall (args : Register) (function_id : LiteralInteger)
  | ComparisonEqual (dest in1 in2 : Register)
  | ComparisonNotEqual (dest in1 in2 : Register)
  | ComparisonGreaterThan (dest in1 in2 : Register)
  | ComparisonGreaterThanEqual (dest in1 in2 : Register)
  | ComparisonLessThan (dest in1 in2 : Register)
  | ComparisonLessThanEqual (dest in1 in2 : Register)
  | JumpIfFalseRelative (test : Register) (offset : LiteralInteger)
  | JumpIfTrueRelative (test : Register) (offset : LiteralInteger)
  | CopyConstant (dest const_lookup : Register)
  | ArrayAssignment (array_reg index value : Register)
  | ArrayGet (array_reg index dest : Register)
deriving DecidableEq, Repr

/-- The register file: the source's `[Data; 256]`, modelled as a total
function (all source indices are `u8`); zero-initialised at `build_state`.
The constant pool is threaded separately as a read-only parameter: the
source's `VMState` couples them, but no opcode ever writes the pool. -/
def Regs := Nat → Data

/-- Write one register. -/
def setReg (regs : Regs) (r : Register) (v : Data) : Regs :=
  fun i => if i = r then v else regs i

/-- A host builtin: receives the first argument register and the mutable
register file. -/
def SyscallFn := Register → Regs → Except String Regs

/-- `Print`: writes the display form of the value in the argument
register to stdout (no register effect, output outside the model). -/
def printFn : SyscallFn := fun _ regs => .ok regs

/-- `Println`: same as `Print` with a trailing newline. -/
def printlnFn : SyscallFn := fun _ regs => .ok regs

/-- `Len`: reads the register one above the argument register; an array
yields its element count written into the argument register as a
`Number`, anything else is a fatal error. -/
def lenFn : SyscallFn := fun reg regs =>
  match regs (reg + 1) with
  | .Array xs => .ok (setReg regs reg (.Number (Q.ofNat xs.length)))
  | _ => .error "Only array types have a length"

/-- The id-to-native-closure table built by `register_syscalls`. -/
def syscall_lookups : LiteralInteger → Option SyscallFn := fun id =>
  if id = 0 then some printFn
  else if id = 1 then some printlnFn
  else if id = 2 then some lenFn
  else none

/-- The name-to-id table built by `register_syscalls`. -/
def syscall_name_lookup : String → Option LiteralInteger := fun name =>
  if name = "Print" then some 0
  else if name = "Println" then some 1
  else if name = "Len" then some 2
  else none

/-- State effect of one opcode (the body of the interpreter's `match`,
minus the jump arms' instruction-pointer adjustment): the new register
file, or the panic message. -/
def execOp (op : Opcode) (consts : List Data) (regs : Regs) : Except String Regs :=
  match op with
  | .Add dest in1 in2 =>
    match regs in1, regs in2 with
    | .Number x, .Number y => .ok (setReg regs dest (.Number (qadd x y)))
    | .Number _, _ => .error "Not a number type as second argument to addition"
    | .Array xs, .Array ys => .ok (setReg regs dest (.Array (xs ++ ys)))
    | .Array xs, y => .ok (setReg regs dest (.Array (xs ++ [y])))
    | _, _ => .error "Not a number type as first argument to addition"
  | .Subtract dest in1 in2 =>
    match regs in1, regs in2 with
    | .Number x, .Number y => .ok (setReg regs dest (.Number (qsub x y)))
    | .Number _, _ => .error "Not a number type as second argument to subtraction"
    | _, _ => .error "Not a number type as first argument to subtraction"
  | .Multiply dest in1 in2 =>
    match regs in1, regs in2 with
    | .Number x, .Number y => .ok (setReg regs dest (.Number (qmul x y)))
    | .Number _, _ => .error "Not a number type as second argument to multiplication"
    | _, _ => .error "Not a number type as first argument to multiplication"
  | .Divide dest in1 in2 =>
    match regs in1, regs in2 with
    | .Number x, .Number y => .ok (setReg regs dest (.Number (qdiv x y)))
    | .Number _, _ => .error "Not a number type as second argument to division"
    | _, _ => .error "Not a number type as first argument to division"
  | .Power dest in1 in2 =>
    match regs in1, regs in2 with
    | .Number x, .Number y => .ok (setReg regs dest (.Number (qpowf x y)))
    | .Number _, _ => .error "Not a number type as second argument to power/exponentiation"
    | _, _ => .error "Not a number type as first argument to power/exponentiation"
  | .LoadLiteral dest value => .ok (setReg regs dest (.Number (Q.ofInt value)))
  | .CopyRegister dest copy_from => .ok (setReg regs dest (regs copy_from))
  | .SysCall args function_id =>
    match syscall_lookups function_id with
    | some f => f args regs
    | none => .error "Unrecognized syscall"
  | .ComparisonEqual dest in1 in2 =>
    .ok (setReg regs dest
      (if regs in1 = regs in2 then .Boolean true else .Boolean false))
  | .ComparisonNotEqual dest in1 in2 =>
    .ok (setReg regs dest
      (if regs in1 ≠ regs in2 then .Boolean true else .Boolean false))
  | .ComparisonGreaterThan dest in1 in2 =>
    .ok (setReg regs dest
      (match dataCmp (regs in1) (regs in2) with
       | .gt => .Boolean true
       | _ => .Boolean false))
  | .ComparisonGreaterThanEqual dest in1 in2 =>
    .ok (setReg regs dest
      (match dataCmp (regs in1) (regs in2) with
       | .lt => .Boolean false
       | _ => .Boolean true))
  | .ComparisonLessThan dest in1 in2 =>
    .ok (setReg regs dest
      (match dataCmp (regs in1) (regs in2) with
       | .lt => .Boolean true
       | _ => .Boolean false))
  | .ComparisonLessThanEqual dest in1 in2 =>
    .ok (setReg regs dest
      (match dataCmp (regs in1) (regs in2) with
       | .gt => .Boolean false
       | _ => .Boolean true))
  | .JumpIfFalseRelative test _ =>
    match regs test with
    | .Boolean _ => .ok regs
    | _ => .error "non boolean value in JumpIfFalseRelative instruction"
  | .JumpIfTrueRelative test _ =>
    match regs test with
    | .Boolean _ => .ok regs
    | _ => .error "non boolean value in JumpIfTrueRelative instruction"
  | .CopyConstant dest const_lookup =>
    match regs const_lookup with
    | .Number x =>
      match consts.get? (asUsize x) with
      | some c => .ok (setReg regs dest c)
      | none => .error "No constant found"
    | _ => .error "Can only use a number as a lookup for constants!"
  | .ArrayAssignment array_reg index value =>
    match regs array_reg with
    | .Array xs =>
      match regs index with
      | .Number y =>
        if asUsize y < xs.length then
          .ok (setReg regs array_reg (.Array (xs.set (asUsize y) (regs value))))
        else .error "index out of bounds"
      | _ => .error "Must use a number as an index to an array"
    | _ => .error "Cannot push to a non array"
  | .ArrayGet array_reg index dest =>
    match regs array_reg with
    | .Array xs =>
      match regs index with
      | .Number y =>
        match xs.get? (asUsize y) with
        | some v => .ok (setReg regs dest v)
        | none => .error "index out of bounds"
      | _ => .error "need a number for indexing"
    | _ => .error "Cannot get data from non array type"

/-- Instruction-pointer effect of one opcode: the jump arms add their
offset when the test register holds the branch-taking boolean, and the
loop then unconditionally increments `ip` by one. -/
def ipEffect (op : Opcode) (regs : Regs) (ip : Int) : Int :=
  match op with
  | .JumpIfFalseRelative test offset =>
    (match regs test with
     | .Boolean x => if !x then ip + offset else ip
     | _ => ip) + 1
  | .JumpIfTrueRelative test offset =>
    (match regs test with
     | .Boolean x => if x then ip + offset else ip
     | _ => ip) + 1
  | _ => ip + 1

/-- One iteration of the interpreter loop body: the opcode's state effect
followed by the (conditional plus unconditional) `ip` update. -/
def execInstr (op : Opcode) (consts : List Data) (regs : Regs) (ip : Int) :
    Except String (Regs × Int) :=
  match execOp op consts regs with
  | .ok regs' => .ok (regs', ipEffect op regs ip)
  | .error e => .error e

/-- Terminal conditions of a run. -/
inductive RunResult where
  | done (regs : Regs)
  | fatal (msg : String)
  | outOfFuel (ip : Int) (regs : Regs)

/-- The interpreter loop (`while ip < program.len()`), with fuel to make
it total. -/
def runAux (consts : List Data) : Nat → List Opcode → Int → Regs → RunResult
  | 0, _, ip, regs => .outOfFuel ip regs
  | Nat.succ fuel, prog, ip, regs =>
    if ip < (prog.length : Int) then
      if ip < 0 then .fatal "index out of bounds"
      else
        match prog.get? ip.toNat with
        | none => .fatal "index out of bounds"
        | some op =>
          match execInstr op consts regs ip with
          | .error msg => .fatal msg
          | .ok (regs', ip') => runAux consts fuel prog ip' regs'
    else .done regs

/-- The positions fetched by the interpreter loop, in execution order
(the same iteration structure as `runAux`; used to count how often a
program point executes). -/
def fetchTrace (consts : List Data) : Nat → List Opcode → Int → Regs → List Int
  | 0, _, _, _ => []
  | Nat.succ fuel, prog, ip, regs =>
    if ip < (prog.length : Int) then
      if ip < 0 then []
      else
        match prog.get? ip.toNat with
        | none => []
        | some op =>
          match execInstr op consts regs ip with
          | .error _ => [ip]
          | .ok (regs', ip') => ip :: fetchTrace consts fuel prog ip' regs'
    else []

/-- Register-file projection of a finished run (for stating concrete
results). -/
def resultReg (r : RunResult) (i : Register) : Option Data :=
  match r with
  | .done regs => some (regs i)
  | _ => none

/-- Compiler-internal state (`CompileData`): the name-to-register binding
table (an association list, newest first; the source inserts a name only
when it is absent, so keys are unique), the first-unused-register
cursor and the growing constant pool.  The borrowed syscall name table is
the fixed global `syscall_name_lookup`. -/
structure CompileData where
  variable_lookup : List (String × Register)
  first_unused_register : Register
  constant_table : List Data
deriving DecidableEq

/-- `build_compile_data`. -/
def build_compile_data : CompileData :=
  { variable_lookup := [], first_unused_register := 0, constant_table := [] }

/-- `build_state`: the zero-initialised register file of a fresh run. -/
def build_state : Regs := fun _ => .Number (Q.ofInt 0)

/-- `execute_program`: run the compiled sequence from `ip = 0` on a fresh
zero-initialised register file against the compiled constant pool. -/
def execute_program (fuel : Nat) (program : List Opcode) (cd : CompileData) :
    RunResult :=
  runAux cd.constant_table fuel program 0 build_state

/-- A leaf of an expression as the front end delivers it (`Rule::value`):
a numeric literal, an identifier, a string literal, or an array-element
read with a literal index. -/
inductive ValueNode where
  | number (n : Int)
  | ident (name : String)
  | str (chars : List Char)
  | arrayElement (name : String) (index : Int)

/-- `compile_value`: the one- or two-instruction load sequence of a leaf,
with `result_reg` as the placeholder register. -/
def compile_value (v : ValueNode) (result_reg : Register) (cd : CompileData) :
    Except String (List Opcode × CompileData) :=
  match v with
  | .number n => .ok ([.LoadLiteral result_reg n], cd)
  | .ident name =>
    match cd.variable_lookup.lookup name with
    | some x => .ok ([.CopyRegister result_reg x], cd)
    | none => .error "Unknown variable"
  | .str chars =>
    .ok ([.LoadLiteral result_reg (cd.constant_table.length : Int),
          .CopyConstant result_reg result_reg],
         { cd with constant_table :=
             cd.constant_table ++ [.Array (chars.map Data.Character)] })
  | .arrayElement name idx =>
    match cd.variable_lookup.lookup name with
    | some x =>
      .ok ([.LoadLiteral (result_reg + 1) idx,
            .ArrayGet x (result_reg + 1) result_reg], cd)
    | none => .error "Unknown array"

/-- The five arithmetic infix operators of the grammar. -/
inductive BinOp where
  | add
  | subtract
  | multiply
  | divide
  | power
deriving DecidableEq, Repr

/-- Precedence tier of an operator in `PREC_CLIMBER` (larger binds
tighter). -/
def precOf : BinOp → Nat
  | .add => 1
  | .subtract => 1
  | .multiply => 2
  | .divide => 2
  | .power => 3

/-- Associativity in `PREC_CLIMBER`: only `^` is right-associative. -/
def isRightAssoc : BinOp → Bool
  | .power => true
  | _ => false

/-- A flat infix expression as the climber consumes it: a leading value
followed by operator-value pairs.  (The grammar file of the front end is
not part of the core; parenthesised sub-expressions are not exercised by
any claim and are omitted.) -/
structure FlatExpr where
  first : ValueNode
  rest : List (BinOp × ValueNode)

/-- The tree shape the precedence climber reduces a flat expression to. -/
inductive Expr where
  | leaf (v : ValueNode)
  | bin (op : BinOp) (lhs rhs : Expr)

/-- The precedence-climbing loop of `PrecClimber::climb` (fuelled): while
the next operator's precedence reaches `minPrec`, consume it, climb its
right-hand side at the operator's precedence (same tier re-entered only
for the right-associative `^`), and fold the infix reduction. -/
def climbAux : Nat → Expr → List (BinOp × ValueNode) → Nat →
    Expr × List (BinOp × ValueNode)
  | 0, lhs, rest, _ => (lhs, rest)
  | Nat.succ fuel, lhs, rest, minPrec =>
    match rest with
    | [] => (lhs, [])
    | (op, v) :: rest' =>
      if precOf op < minPrec then (lhs, rest)
      else
        let subMin := if isRightAssoc op then precOf op else precOf op + 1
        let (rhs, rest2) := climbAux fuel (.leaf v) rest' subMin
        climbAux fuel (.bin op lhs rhs) rest2 minPrec

/-- Precedence-climb a flat expression into its operator tree. -/
def climbTree (e : FlatExpr) : Expr :=
  (climbAux (2 * e.rest.length + 1) (.leaf e.first) e.rest 0).1

/-- The placeholder-operand arithmetic instruction each infix reduction
appends (`dest: 0, in1: 0, in2: 0` before the fix-up pass). -/
def arithOpcode (op : BinOp) (dest in1 in2 : Register) : Opcode :=
  match op with
  | .add => .Add dest in1 in2
  | .subtract => .Subtract dest in1 in2
  | .multiply => .Multiply dest in1 in2
  | .divide => .Divide dest in1 in2
  | .power => .Power dest in1 in2

/-- The climbing pass of `compile_expression`: bottom-up, a leaf
contributes its load sequence and each operator contributes its operands'
sequences concatenated followed by one all-zero-placeholder arithmetic
instruction.  Leaves are visited left to right, threading the constant
pool. -/
def linearize : Expr → Register → CompileData → Except String (List Opcode × CompileData)
  | .leaf v, result_reg, cd => compile_value v result_reg cd
  | .bin op lhs rhs, result_reg, cd => do
    let (lc, cd1) ← linearize lhs result_reg cd
    let (rc, cd2) ← linearize rhs result_reg cd1
    .ok (lc ++ rc ++ [arithOpcode op 0 0 0], cd2)

/-- One step of the register fix-up pass: the cursor effect of each
instruction kind.  `Nat` subtraction is truncated; the source's `u8`
cursor never underflows on compiler-produced sequences, and the theorems
that mention subtraction carry explicit lower bounds. -/
def fixupStep (cursor : Register) : Opcode → Except String (Opcode × Register)
  | .LoadLiteral _ value => .ok (.LoadLiteral cursor value, cursor + 1)
  | .CopyRegister _ copy_from => .ok (.CopyRegister cursor copy_from, cursor + 1)
  | .CopyConstant _ const_lookup =>
    .ok (.CopyConstant (cursor - 1) const_lookup, cursor - 1 + 1)
  | .ArrayGet array_reg index _ =>
    .ok (.ArrayGet array_reg index (cursor - 1), cursor - 1 + 1)
  | .Add _ _ _ => .ok (.Add (cursor - 2) (cursor - 2) (cursor - 2 + 1), cursor - 2 + 1)
  | .Subtract _ _ _ =>
    .ok (.Subtract (cursor - 2) (cursor - 2) (cursor - 2 + 1), cursor - 2 + 1)
  | .Multiply _ _ _ =>
    .ok (.Multiply (cursor - 2) (cursor - 2) (cursor - 2 + 1), cursor - 2 + 1)
  | .Divide _ _ _ =>
    .ok (.Divide (cursor - 2) (cursor - 2) (cursor - 2 + 1), cursor - 2 + 1)
  | .Power _ _ _ =>
    .ok (.Power (cursor - 2) (cursor - 2) (cursor - 2 + 1), cursor - 2 + 1)
  | _ => .error "Unexpected OpCode in an expression"

/-- The second pass of `compile_expression`: re-walk the flat sequence
left to right with the register cursor. -/
def fixupList : List Opcode → Register → Except String (List Opcode × Register)
  | [], cursor => .ok ([], cursor)
  | op :: rest, cursor => do
    let (op', c1) ← fixupStep cursor op
    let (rest', c2) ← fixupList rest c1
    .ok (op' :: rest', c2)

/-- `compile_expression`: precedence climbing to a placeholder sequence,
then the register fix-up pass with the cursor initialised to the
expression's base register. -/
def compile_expression (e : FlatExpr) (result_reg : Register) (cd : CompileData) :
    Except String (List Opcode × CompileData) := do
  let (code, cd') ← linearize (climbTree e) result_reg cd
  let (fixed, _) ← fixupList code result_reg
  .ok (fixed, cd')

/-- The six comparison operators of the grammar. -/
inductive CmpOp where
  | boolEqual
  | notEqual
  | greaterThan
  | greaterThanEqual
  | lessThan
  | lessThanEqual
deriving DecidableEq, Repr

/-- The comparison instruction matching a comparison operator. -/
def cmpOpcode (op : CmpOp) (dest in1 in2 : Register) : Opcode :=
  match op with
  | .boolEqual => .ComparisonEqual dest in1 in2
  | .notEqual => .ComparisonNotEqual dest in1 in2
  | .greaterThan => .ComparisonGreaterThan dest in1 in2
  | .greaterThanEqual => .ComparisonGreaterThanEqual dest in1 in2
  | .lessThan => .ComparisonLessThan dest in1 in2
  | .lessThanEqual => .ComparisonLessThanEqual dest in1 in2

/-- A condition node: left expression, comparison operator, right
expression. -/
structure Comparison where
  lhs : FlatExpr
  op : CmpOp
  rhs : FlatExpr

/-- `compile_comparison`: both operand expressions materialised at the
current first-unused register and the one above it, then the matching
comparison instruction into the first-unused register; the permanent
cursor is not advanced. -/
def compile_comparison (c : Comparison) (cd : CompileData) :
    Except String (List Opcode × CompileData) := do
  let (lhs_val, cd1) ← compile_expression c.lhs cd.first_unused_register cd
  let (rhs_val, cd2) ← compile_expression c.rhs (cd1.first_unused_register + 1) cd1
  .ok (lhs_val ++ rhs_val ++
    [cmpOpcode c.op cd2.first_unused_register cd2.first_unused_register
      (cd2.first_unused_register + 1)], cd2)

/-- The target of an assignment statement. -/
inductive AssignTarget where
  | ident (name : String)
  | arrayElement (name : String) (index : Int)

/-- A top-level statement as the front end delivers it.  Function
definitions and load statements are front-end constructs no claim
exercises. -/
inductive Stmt where
  | assignment (target : AssignTarget) (e : FlatExpr)
  | functionCall (name : String) (args : List ValueNode)
  | ifStatement (cond : Comparison) (body : List Stmt)
  | whileLoop (cond : Comparison) (body : List Stmt)

/-- `compile_assignment`: compile the right-hand side into the first
unused register; a bound plain name gets a copy into its home register,
an unbound one is bound to that register and the cursor advanced; an
array-element target gets a literal index load and an `ArrayAssignment`
into the array's bound register (an unbound array name is merely bound,
as in the source). -/
def compile_assignment (target : AssignTarget) (e : FlatExpr) (cd : CompileData) :
    Except String (List Opcode × CompileData) := do
  let (res, cd1) ← compile_expression e cd.first_unused_register cd
  match target with
  | .ident name =>
    match cd1.variable_lookup.lookup name with
    | some x => .ok (res ++ [.CopyRegister x cd1.first_unused_register], cd1)
    | none =>
      .ok (res, { cd1 with
        variable_lookup := (name, cd1.first_unused_register) :: cd1.variable_lookup,
        first_unused_register := cd1.first_unused_register + 1 })
  | .arrayElement name idx =>
    match cd1.variable_lookup.lookup name with
    | some x =>
      .ok (res ++ [.LoadLiteral (cd1.first_unused_register + 1) idx,
        .ArrayAssignment x (cd1.first_unused_register + 1) cd1.first_unused_register], cd1)
    | none =>
      .ok (res ++ [.LoadLiteral (cd1.first_unused_register + 1) idx], { cd1 with
        variable_lookup := (name, cd1.first_unused_register) :: cd1.variable_lookup,
        first_unused_register := cd1.first_unused_register + 1 })

/-- Argument compilation loop of `compile_function_call`: each argument
value into successive registers starting at the first-unused cursor. -/
def compileArgs : List ValueNode → Register → CompileData →
    Except String (List Opcode × CompileData)
  | [], _, cd => .ok ([], cd)
  | arg :: rest, reg, cd => do
    let (code, cd1) ← compile_value arg reg cd
    let (codes, cd2) ← compileArgs rest (reg + 1) cd1
    .ok (code ++ codes, cd2)

/-- `compile_function_call`: arguments, the `SysCall`, then a reverse
copy for every argument instruction that was a bare-identifier copy
(copy-out argument passing). -/
def compile_function_call (func_name : String) (args : List ValueNode) (cd : CompileData) :
    Except String (List Opcode × CompileData) := do
  let (arg_codes, cd1) ← compileArgs args cd.first_unused_register cd
  match syscall_name_lookup func_name with
  | none => .error "Unknown function"
  | some id =>
    .ok (arg_codes ++ [.SysCall cd1.first_unused_register id] ++
      (arg_codes.filterMap fun code =>
        match code with
        | .CopyRegister dest copy_from => some (Opcode.CopyRegister copy_from dest)
        | _ => none), cd1)

mutual

/-- `compile_program` dispatch on one statement: assignment, function
call, `compile_if` (comparison, then a `JumpIfFalseRelative` over the
body) or `compile_while_loop` (comparison, forward jump sized
body+comparison+2, body, the comparison re-emitted, backward jump
-(body+comparison+1)); both jumps test the first-unused register as it
stands after the body has been compiled. -/
def compile_stmt : Stmt → CompileData → Except String (List Opcode × CompileData)
  | .assignment target e, cd => compile_assignment target e cd
  | .functionCall name args, cd => compile_function_call name args cd
  | .ifStatement cond body, cd => do
    let (res, cd1) ← compile_comparison cond cd
    let (inner, cd2) ← compile_program body cd1
    .ok (res ++ [.JumpIfFalseRelative cd2.first_unused_register (inner.length : Int)] ++
      inner, cd2)
  | .whileLoop cond body, cd => do
    let (res, cd1) ← compile_comparison cond cd
    let (inner, cd2) ← compile_program body cd1
    let offset : Int := (inner.length : Int) + (res.length : Int)
    .ok (res ++ [.JumpIfFalseRelative cd2.first_unused_register (offset + 2)] ++
      inner ++ res ++
      [.JumpIfTrueRelative cd2.first_unused_register (-(offset + 1))], cd2)

/-- `compile_program`: concatenate the statements' instruction sequences,
threading the compile data. -/
def compile_program : List Stmt → CompileData → Except String (List Opcode × CompileData)
  | [], cd => .ok ([], cd)
  | line :: rest, cd => do
    let (c1, cd1) ← compile_stmt line cd
    let (c2, cd2) ← compile_program rest cd1
    .ok (c1 ++ c2, cd2)

end

/-- The rational a `Q` value denotes. -/
def Q.toRat (a : Q) : ℚ := (a.num : ℚ) / (a.den : ℚ)

/-- Well-formedness of a `Q` value: positive denominator, reduced
fraction.  Every `Q` the VM can produce is well-formed. -/
def Q.Wf (a : Q) : Prop := a.den ≠ 0 ∧ Nat.Coprime a.num.natAbs a.den

/-- `f64::powf` on `ℚ`, restricted like `qpowf` to integer exponents. -/
def ratPowf (x y : ℚ) : ℚ := if y.den = 1 then x ^ y.num else 0

/-- The `Q` operation of an arithmetic operator. -/
def evalOpQ : BinOp → Q → Q → Q
  | .add => qadd
  | .subtract => qsub
  | .multiply => qmul
  | .divide => qdiv
  | .power => qpowf

/-- The `ℚ` operation of an arithmetic operator (the mathematical
reading). -/
def evalOpRat : BinOp → ℚ → ℚ → ℚ
  | .add => (· + ·)
  | .subtract => (· - ·)
  | .multiply => (· * ·)
  | .divide => (· / ·)
  | .power => ratPowf

/-- Value of a literal-only expression tree over `Q` (non-literal leaves,
excluded by `Expr.allLit`, default to `0`). -/
def Expr.evalQ : Expr → Q
  | .leaf (.number n) => Q.ofInt n
  | .leaf _ => Q.ofInt 0
  | .bin op lhs rhs => evalOpQ op lhs.evalQ rhs.evalQ

/-- Value of a literal-only expression tree over `ℚ`. -/
def Expr.evalRat : Expr → ℚ
  | .leaf (.number n) => (n : ℚ)
  | .leaf _ => 0
  | .bin op lhs rhs => evalOpRat op lhs.evalRat rhs.evalRat

/-- A leaf that is a numeric literal. -/
def ValueNode.isNumber : ValueNode → Prop
  | .number _ => True
  | _ => False

/-- An expression tree whose leaves are all numeric literals. -/
def Expr.allLit : Expr → Prop
  | .leaf v => v.isNumber
  | .bin _ lhs rhs => lhs.allLit ∧ rhs.allLit

/-- A flat expression whose values are all numeric literals. -/
def FlatExpr.allLit (e : FlatExpr) : Prop :=
  e.first.isNumber ∧ ∀ p ∈ e.rest, (p.2 : ValueNode).isNumber

/-- The mathematical value of a flat expression under the precedence
tiers and associativities of `PREC_CLIMBER`. -/
def FlatExpr.mathValue (e : FlatExpr) : ℚ := (climbTree e).evalRat

/-- Opcodes that never adjust the instruction pointer. -/
def noJump : Opcode → Prop
  | .JumpIfFalseRelative _ _ => False
  | .JumpIfTrueRelative _ _ => False
  | _ => True

/-- Straight-line execution of an instruction list (the interpreter loop
specialised to jump-free code, where `ip` only ever moves to the next
instruction; related to `runAux` by `runAux_of_execList`). -/
def execList (consts : List Data) : List Opcode → Regs → Except String Regs
  | [], regs => .ok regs
  | op :: rest, regs =>
    match execOp op consts regs with
    | .ok regs' => execList consts rest regs'
    | .error e => .error e

/-- An assignment statement to a plain name. -/
def mkAssign (p : String × FlatExpr) : Stmt := .assignment (.ident p.1) p.2

/-- The value of the last right-hand side assigned to a name in a
literal-assignment program (over `Q`). -/
def specLookup (stmts : List (String × FlatExpr)) (name : String) : Option Q :=
  ((stmts.filter fun p => p.1 = name).getLast?).map fun p => (climbTree p.2).evalQ

/-- The mathematical (`ℚ`) value of the last right-hand side assigned to
a name in a literal-assignment program. -/
def specLookupRat (stmts : List (String × FlatExpr)) (name : String) : Option ℚ :=
  ((stmts.filter fun p => p.1 = name).getLast?).map fun p => FlatExpr.mathValue p.2

/-- The compile-and-run invariant of literal-assignment programs: every
bound name's register is below the cursor, distinct names have distinct
registers, and each bound register holds the `Q` value of the name's
latest assignment. -/
def Inv (stmts : List (String × FlatExpr)) (cd : CompileData) (regs : Regs) : Prop :=
  (∀ name r, cd.variable_lookup.lookup name = some r → r < cd.first_unused_register) ∧
  (∀ n1 n2 r, cd.variable_lookup.lookup n1 = some r →
    cd.variable_lookup.lookup n2 = some r → n1 = n2) ∧
  (∀ name r, cd.variable_lookup.lookup name = some r →
    ∃ q, specLookup stmts name = some q ∧ regs r = Data.Number q)

/-- The `i = 0; while (i < 3) do i = i + 1` program of the jump-offset
test (§8 of the spec). -/
def c4prog : List Stmt :=
  [ .assignment (.ident "i") ⟨.number 0, []⟩,
    .whileLoop ⟨⟨.ident "i", []⟩, .lessThan, ⟨.number 3, []⟩⟩
      [ .assignment (.ident "i") ⟨.ident "i", [(.add, .number 1)]⟩ ] ]

/-- The instruction sequence `c4prog` compiles to. -/
def c4code : List Opcode :=
  [.LoadLiteral 0 0, .CopyRegister 1 0, .LoadLiteral 2 3, .ComparisonLessThan 1 1 2,
   .JumpIfFalseRelative 1 9, .CopyRegister 1 0, .LoadLiteral 2 1, .Add 1 1 2,
   .CopyRegister 0 1, .CopyRegister 1 0, .LoadLiteral 2 3, .ComparisonLessThan 1 1 2,
   .JumpIfTrueRelative 1 (-8)]

/-- The compile data `c4prog` ends with. -/
def c4cd : CompileData :=
  { variable_lookup := [("i", 0)], first_unused_register := 1, constant_table := [] }

/-- The compiled comparison of `c4prog`'s loop condition. -/
def c4cmp : List Opcode :=
  [.CopyRegister 1 0, .LoadLiteral 2 3, .ComparisonLessThan 1 1 2]

/-- The compiled loop body of `c4prog`. -/
def c4body : List Opcode :=
  [.CopyRegister 1 0, .LoadLiteral 2 1, .Add 1 1 2, .CopyRegister 0 1]

/-- Compile data after `while (1 < 2) do x = 5` (used as a concrete
witness input). -/
def c10cd : CompileData :=
  { variable_lookup := [("x", 0)], first_unused_register := 1, constant_table := [] }

/-- Aliasing scenario of the sharing claim: load an array constant into
r0, copy r0 to r1, overwrite element 0 through r0, then read element 0
through r1 into r4. -/
def c1prog : List Opcode :=
  [.LoadLiteral 0 0, .CopyConstant 0 0, .CopyRegister 1 0,
   .LoadLiteral 2 0, .LoadLiteral 3 99, .ArrayAssignment 0 2 3,
   .ArrayGet 1 2 4]

/-- Constant pool of the aliasing scenario: one single-element array. -/
def c1consts : List Data := [.Array [.Number (Q.ofInt 7)]]

/-- Boolean semantics of a comparison opcode on two operand values:
structural equality for the equality forms, the derived ordering for the
order forms. -/
def cmpSem : CmpOp → Data → Data → Bool
  | .boolEqual, v1, v2 => decide (v1 = v2)
  | .notEqual, v1, v2 => !decide (v1 = v2)
  | .greaterThan, v1, v2 => decide (dataCmp v1 v2 = .gt)
  | .greaterThanEqual, v1, v2 => !decide (dataCmp v1 v2 = .lt)
  | .lessThan, v1, v2 => decide (dataCmp v1 v2 = .lt)
  | .lessThanEqual, v1, v2 => !decide (dataCmp v1 v2 = .gt)

/-- The flat expression `2 + 3 * 4` of the precedence test. -/
def c6sum : FlatExpr := ⟨.number 2, [(.add, .number 3), (.multiply, .number 4)]⟩

/-- The flat expression `2 ^ 3 ^ 2` of the associativity test. -/
def c6pow : FlatExpr := ⟨.number 2, [(.power, .number 3), (.power, .number 2)]⟩

/-- A two-assignment literal program exercising both precedence test
expressions. -/
def c6prog : List (String × FlatExpr) := [("x", c6sum), ("y", c6pow)]

/-- The numeric-literal conversion of `compile_value`'s `Rule::number`
arm, `target.as_str().parse::<i16>().unwrap()`: a literal token whose
value lies outside the `i16` range panics inside the `unwrap` before
any instruction is emitted. -/
def parse_i16 (n : Int) : Except String Int :=
  if -32768 ≤ n ∧ n ≤ 32767 then .ok n
  else .error "called `Result::unwrap()` on an `Err` value: ParseIntError"

/-- `compile_value` on a numeric literal with the source's `i16` parse
of the token made explicit (the pipeline's `compile_value` carries the
already parsed value, so it is faithful only when the parse succeeds):
compiling an out-of-range literal is the fatal `unwrap` panic. -/
def compile_value_checked (v : ValueNode) (result_reg : Register)
    (cd : CompileData) : Except String (List Opcode × CompileData) :=
  match v with
  | .number n => do
    let m ← parse_i16 n
    .ok ([.LoadLiteral result_reg m], cd)
  | _ => compile_value v result_reg cd

/-- An `f64`-exact integer value: denominator one and magnitude at most
`2 ^ 53` (the double mantissa width) — on such values the source's
`f64` addition, subtraction, multiplication, division and integral
`powf` coincide with exact rational arithmetic, while outside them they
round (`1 / 3`, `3 ^ 40`, products past `2 ^ 53`). -/
def f64ExactInt (q : Q) : Prop := q.den = 1 ∧ q.num.natAbs ≤ 2 ^ 53

instance (q : Q) : Decidable (f64ExactInt q) :=
  inferInstanceAs (Decidable (q.den = 1 ∧ q.num.natAbs ≤ 2 ^ 53))

/-- Every subtree of an expression evaluates to an `f64`-exact integer,
so no operation of the compiled run rounds. -/
def Expr.allExact : Expr → Prop
  | .leaf v => f64ExactInt (Expr.evalQ (.leaf v))
  | .bin op lhs rhs => Expr.allExact lhs ∧ Expr.allExact rhs ∧
      f64ExactInt (Expr.evalQ (.bin op lhs rhs))

instance Expr.allExact.dec : (t : Expr) → Decidable t.allExact
  | .leaf v => inferInstanceAs (Decidable (f64ExactInt (Expr.evalQ (.leaf v))))
  | .bin op lhs rhs =>
    letI := Expr.allExact.dec lhs
    letI := Expr.allExact.dec rhs
    inferInstanceAs (Decidable (Expr.allExact lhs ∧ Expr.allExact rhs ∧
      f64ExactInt (Expr.evalQ (.bin op lhs rhs))))

/-- A numeric-literal leaf whose token is within the `i16` parse range
(non-number leaves carry no numeric token parsed by this arm). -/
def ValueNode.litInRange : ValueNode → Prop
  | .number n => -32768 ≤ n ∧ n ≤ 32767
  | _ => True

instance : (v : ValueNode) → Decidable v.litInRange
  | .number n => inferInstanceAs (Decidable (-32768 ≤ n ∧ n ≤ 32767))
  | .ident _ => .isTrue True.intro
  | .str _ => .isTrue True.intro
  | .arrayElement _ _ => .isTrue True.intro

/-- All literal tokens of a flat expression are within the `i16` parse
range, so its compilation never reaches the `unwrap` panic. -/
def FlatExpr.litsInRange (e : FlatExpr) : Prop :=
  e.first.litInRange ∧ ∀ p ∈ e.rest, (p.2 : ValueNode).litInRange

instance (e : FlatExpr) : Decidable e.litsInRange :=
  inferInstanceAs (Decidable (e.first.litInRange ∧
    ∀ p ∈ e.rest, (p.2 : ValueNode).litInRange))

theorem setReg_self (regs : Regs) (r : Register) (v : Data) : setReg regs r v r = v := by
  simp [setReg]

theorem setReg_ne (regs : Regs) {i r : Register} (v : Data) (h : i ≠ r) :
    setReg regs r v i = regs i := by
  simp [setReg, h]

theorem errBind {α β : Type} (e : String) (f : α → Except String β) :
    (Except.error e >>= f) = Except.error e := rfl

theorem okBind {α β : Type} (x : α) (f : α → Except String β) :
    (Except.ok x >>= f) = f x := rfl

/-- Claim C2, counterexample: with `Number 1` in r1 and an (empty) array
in r2, `Add 0 1 2` is a fatal error — the claim's "either operand
(whether the first or the second)" fails for a second-operand array. -/
theorem C2_counterexample :
    execOp (.Add 0 1 2)
      [] (setReg (setReg build_state 1 (.Number (Q.ofInt 1))) 2 (.Array [])) =
      .error "Not a number type as second argument to addition" := rfl

/-- Claim C2 as amended: `Add` on two Numbers writes their sum; if the
first operand is an `Array`, `Add` succeeds and the destination receives
the concatenation (second operand also an array) or the array with the
second operand appended (second operand not an array); but a `Number`
first operand with an `Array` second operand is a fatal error. -/
theorem C2_theorem : ∀ (consts : List Data) (regs : Regs) (dest in1 in2 : Register),
    (∀ x y, regs in1 = .Number x → regs in2 = .Number y →
      execOp (.Add dest in1 in2) consts regs =
        .ok (setReg regs dest (.Number (qadd x y)))) ∧
    (∀ xs ys, regs in1 = .Array xs → regs in2 = .Array ys →
      execOp (.Add dest in1 in2) consts regs =
        .ok (setReg regs dest (.Array (xs ++ ys)))) ∧
    (∀ xs, regs in1 = .Array xs → (∀ ys, regs in2 ≠ .Array ys) →
      execOp (.Add dest in1 in2) consts regs =
        .ok (setReg regs dest (.Array (xs ++ [regs in2])))) ∧
    (∀ x ys, regs in1 = .Number x → regs in2 = .Array ys →
      execOp (.Add dest in1 in2) consts regs =
        .error "Not a number type as second argument to addition") := by
  intro consts regs dest in1 in2
  refine ⟨?_, ?_, ?_, ?_⟩
  · intro x y h1 h2
    simp [execOp, h1, h2]
  · intro xs ys h1 h2
    simp [execOp, h1, h2]
  · intro xs h1 h2
    cases h2' : regs in2 with
    | Number y => simp [execOp, h1, h2']
    | Character c => simp [execOp, h1, h2']
    | Boolean b => simp [execOp, h1, h2']
    | Array ys => exact absurd h2' (h2 ys)
  · intro x ys h1 h2
    simp [execOp, h1, h2]

/-- Claim C2 witness: the amended theorem at concrete inputs. -/
theorem C2_witness :
    execOp (.Add 0 1 2)
      [] (setReg (setReg build_state 1 (.Array [.Number (Q.ofInt 5)])) 2 (.Number (Q.ofInt 6))) =
      .ok (setReg (setReg (setReg build_state 1 (.Array [.Number (Q.ofInt 5)]))
        2 (.Number (Q.ofInt 6))) 0 (.Array [.Number (Q.ofInt 5), .Number (Q.ofInt 6)])) := by
  have h := (C2_theorem []
    (setReg (setReg build_state 1 (.Array [.Number (Q.ofInt 5)])) 2 (.Number (Q.ofInt 6)))
    0 1 2).2.2.1 [.Number (Q.ofInt 5)] (by decide) (fun ys h => by simp [setReg] at h)
  simpa using h

/-- Claim C5, counterexample: the register fix-up pass does not give a
comparison opcode the binary-instruction cursor effect — it is the
fatal "Unexpected OpCode in an expression" arm (comparisons are emitted
by compile_comparison with explicit registers and never pass through
this pass). -/
theorem C5_counterexample :
    fixupStep 2 (.ComparisonEqual 0 0 0) = .error "Unexpected OpCode in an expression" := rfl

/-- Claim C5 as amended (comparison opcodes dropped from the binary
group): in the fix-up pass, `LoadLiteral` and `CopyRegister` write their
destination at the cursor and advance it by one; `CopyConstant` and
`ArrayGet` write their destination one below the cursor and leave it
unchanged; the five arithmetic binaries retreat the cursor by two, write
destination and first input there with the second input one above, and
advance by one; a comparison opcode is a fatal error. -/
theorem C5_theorem : ∀ cursor : Nat,
    (∀ d v, fixupStep cursor (.LoadLiteral d v) = .ok (.LoadLiteral cursor v, cursor + 1)) ∧
    (∀ d cf, fixupStep cursor (.CopyRegister d cf) = .ok (.CopyRegister cursor cf, cursor + 1)) ∧
    (1 ≤ cursor → ∀ d cl, fixupStep cursor (.CopyConstant d cl) =
      .ok (.CopyConstant (cursor - 1) cl, cursor)) ∧
    (1 ≤ cursor → ∀ ar ix d, fixupStep cursor (.ArrayGet ar ix d) =
      .ok (.ArrayGet ar ix (cursor - 1), cursor)) ∧
    (2 ≤ cursor → ∀ op d i1 i2, fixupStep cursor (arithOpcode op d i1 i2) =
      .ok (arithOpcode op (cursor - 2) (cursor - 2) (cursor - 1), cursor - 1)) ∧
    (∀ op d i1 i2, fixupStep cursor (cmpOpcode op d i1 i2) =
      .error "Unexpected OpCode in an expression") := by
  intro cursor
  refine ⟨fun d v => rfl, fun d cf => rfl, ?_, ?_, ?_, ?_⟩
  · intro h d cl
    have h1 : cursor - 1 + 1 = cursor := by omega
    simp [fixupStep, h1]
  · intro h ar ix d
    have h1 : cursor - 1 + 1 = cursor := by omega
    simp [fixupStep, h1]
  · intro h op d i1 i2
    have h1 : cursor - 2 + 1 = cursor - 1 := by omega
    cases op <;> simp [fixupStep, arithOpcode, h1]
  · intro op d i1 i2
    cases op <;> rfl

/-- Claim C5 witness: the amended cursor effects at cursor 3. -/
theorem C5_witness :
    fixupStep 3 (.CopyConstant 9 4) = .ok (.CopyConstant 2 4, 3) ∧
    fixupStep 3 (.Add 7 7 7) = .ok (.Add 1 1 2, 2) := by
  refine ⟨(C5_theorem 3).2.2.1 (by decide) 9 4, ?_⟩
  have h := (C5_theorem 3).2.2.2.2.1 (by decide) .add 7 7 7
  simpa [arithOpcode] using h

/-- Claim C7: every comparison opcode executes without a fatal error and
writes a Boolean — the structural/ordering semantics `cmpSem` — into its
destination; the derived ordering compares payloads structurally within
one variant and falls back to the fixed declaration order
Number, Character, Boolean, Array across variants. -/
theorem C7_theorem : ∀ (consts : List Data) (regs : Regs) (d i1 i2 : Register),
    (∀ op : CmpOp, execOp (cmpOpcode op d i1 i2) consts regs =
      .ok (setReg regs d (.Boolean (cmpSem op (regs i1) (regs i2))))) ∧
    (∀ v1 v2 : Data, tagIdx v1 ≠ tagIdx v2 →
      dataCmp v1 v2 = natCmp (tagIdx v1) (tagIdx v2)) ∧
    (∀ x y, dataCmp (.Number x) (.Number y) = qcmp x y) ∧
    (∀ c1 c2, dataCmp (.Character c1) (.Character c2) = charCmp c1 c2) ∧
    (∀ b1 b2, dataCmp (.Boolean b1) (.Boolean b2) = boolCmp b1 b2) ∧
    (∀ xs ys, dataCmp (.Array xs) (.Array ys) = listCmp xs ys) := by
  intro consts regs d i1 i2
  refine ⟨?_, ?_, fun x y => rfl, fun c1 c2 => rfl, fun b1 b2 => rfl, fun xs ys => rfl⟩
  · intro op
    cases op
    · by_cases h : regs i1 = regs i2 <;> simp [cmpOpcode, execOp, cmpSem, h]
    · by_cases h : regs i1 = regs i2 <;> simp [cmpOpcode, execOp, cmpSem, h]
    · cases hc : dataCmp (regs i1) (regs i2) <;> simp [cmpOpcode, execOp, cmpSem, hc]
    · cases hc : dataCmp (regs i1) (regs i2) <;> simp [cmpOpcode, execOp, cmpSem, hc]
    · cases hc : dataCmp (regs i1) (regs i2) <;> simp [cmpOpcode, execOp, cmpSem, hc]
    · cases hc : dataCmp (regs i1) (regs i2) <;> simp [cmpOpcode, execOp, cmpSem, hc]
  · intro v1 v2 h
    cases v1 <;> cases v2 <;> simp [tagIdx] at h ⊢ <;> simp [dataCmp, tagIdx]

/-- Claim C7 witness: a cross-variant comparison (Number vs Boolean)
succeeds and yields the tag-order Boolean. -/
theorem C7_witness :
    execOp (.ComparisonLessThan 2 0 1)
      [] (setReg build_state 1 (.Boolean false)) =
      .ok (setReg (setReg build_state 1 (.Boolean false)) 2 (.Boolean true)) ∧
    dataCmp (.Number (Q.ofInt 0)) (.Boolean false) = natCmp 0 2 := by
  constructor
  · have h := ((C7_theorem [] (setReg build_state 1 (.Boolean false)) 2 0 1).1 .lessThan)
    have h2 : cmpSem .lessThan (setReg build_state 1 (.Boolean false) 0)
        (setReg build_state 1 (.Boolean false) 1) = true := by decide
    have h3 : Opcode.ComparisonLessThan 2 0 1 = cmpOpcode .lessThan 2 0 1 := rfl
    rw [h3, h, h2]
  · have h := (C7_theorem [] build_state 0 0 0).2.1
      (.Number (Q.ofInt 0)) (.Boolean false) (by decide)
    simpa [tagIdx] using h

/-- Claim C8: an `ArrayAssignment` whose index is at or beyond the
array's length is the fatal "index out of bounds" error, and a
successful `ArrayAssignment` never changes the array's length. -/
theorem C8_theorem : ∀ (consts : List Data) (regs : Regs) (a i v : Register)
    (xs : List Data) (y : Q), regs a = .Array xs → regs i = .Number y →
    (xs.length ≤ asUsize y →
      execOp (.ArrayAssignment a i v) consts regs = .error "index out of bounds") ∧
    (∀ regs', execOp (.ArrayAssignment a i v) consts regs = .ok regs' →
      ∃ zs : List Data, regs' a = .Array zs ∧ zs.length = xs.length) := by
  intro consts regs a i v xs y ha hi
  constructor
  · intro hlen
    simp [execOp, ha, hi, Nat.not_lt.mpr hlen]
  · intro regs' hok
    by_cases hlt : asUsize y < xs.length
    · simp [execOp, ha, hi, hlt] at hok
      exact ⟨xs.set (asUsize y) (regs v), by rw [← hok]; simp [setReg_self], by simp⟩
    · simp [execOp, ha, hi, hlt] at hok

theorem asUsize_ofInt_natCast (n : Nat) : asUsize (Q.ofInt (n : Int)) = n := by
  simp [asUsize, Q.ofInt]

/-- Straight-line execution steps through a successful head
instruction. -/
theorem execList_cons_ok (consts : List Data) (op : Opcode) (rest : List Opcode)
    (regs regs1 : Regs) (h : execOp op consts regs = .ok regs1) :
    execList consts (op :: rest) regs = execList consts rest regs1 := by
  simp [execList, h]

/-- One iteration of the interpreter loop at an in-range position:
fetch, execute, continue at the updated instruction pointer. -/
theorem runAux_step (consts : List Data) (fuel : Nat) (prog : List Opcode)
    (p : Nat) (op : Opcode) (regs : Regs) (hfetch : prog.get? p = some op) :
    runAux consts (fuel + 1) prog (p : Int) regs =
      (match execInstr op consts regs (p : Int) with
       | .error msg => .fatal msg
       | .ok (regs', ip') => runAux consts fuel prog ip' regs') := by
  have hp : p < prog.length := by
    rcases List.get?_eq_some.mp hfetch with ⟨h, _⟩
    exact h
  have h2 : ((p : Nat) : Int) < (prog.length : Int) := by exact_mod_cast hp
  have h1 : ¬ (((p : Nat) : Int) < 0) := by simp
  have h3 : ((p : Int)).toNat = p := Int.toNat_natCast p
  conv_lhs => rw [runAux]
  rw [if_pos h2, if_neg h1, h3, hfetch]

/-- Claim C1, counterexample: after `CopyRegister r1 := r0` of an array
and an `ArrayAssignment` of 99 into element 0 through r0, reading
element 0 through r1 yields the old value 7, not 99 — the two registers
hold independent deep copies, not aliases of one array. -/
theorem C1_counterexample :
    resultReg (runAux c1consts 10 c1prog 0 build_state) 0 =
      some (.Array [.Number (Q.ofInt 99)]) ∧
    resultReg (runAux c1consts 10 c1prog 0 build_state) 1 =
      some (.Array [.Number (Q.ofInt 7)]) ∧
    resultReg (runAux c1consts 10 c1prog 0 build_state) 4 =
      some (.Number (Q.ofInt 7)) := by decide

/-- Claim C1 as amended: array values are deep-copied, never shared —
`CopyRegister` stores a copy of the source register's value, and an
`ArrayAssignment` through one register changes that register alone:
every other register (in particular one that was copied from the mutated
one) is unchanged, so the mutation is not visible through it. -/
theorem C1_theorem : ∀ (consts : List Data) (regs : Regs) (a i v : Register)
    (regs' : Regs),
    (∀ d s, execOp (.CopyRegister d s) consts regs = .ok (setReg regs d (regs s))) ∧
    (execOp (.ArrayAssignment a i v) consts regs = .ok regs' →
      ∀ r, r ≠ a → regs' r = regs r) := by
  intro consts regs a i v regs'
  refine ⟨fun d s => rfl, ?_⟩
  intro hok r hr
  cases ha : regs a with
  | Array xs =>
    cases hi : regs i with
    | Number y =>
      by_cases hlt : asUsize y < xs.length
      · simp [execOp, ha, hi, hlt] at hok
        rw [← hok]
        exact setReg_ne regs _ hr
      · simp [execOp, ha, hi, hlt] at hok
    | Character c => simp [execOp, ha, hi] at hok
    | Boolean b => simp [execOp, ha, hi] at hok
    | Array ys => simp [execOp, ha, hi] at hok
  | Number x => simp [execOp, ha] at hok
  | Character c => simp [execOp, ha] at hok
  | Boolean b => simp [execOp, ha] at hok

/-- Claim C1 witness: the amended locality at a concrete mutation. -/
theorem C1_witness :
    execOp (.ArrayAssignment 0 2 3) c1consts
      (setReg (setReg (setReg build_state 0 (.Array [.Number (Q.ofInt 7)]))
        2 (.Number (Q.ofInt 0))) 3 (.Number (Q.ofInt 99))) =
      .ok (setReg (setReg (setReg (setReg build_state 0 (.Array [.Number (Q.ofInt 7)]))
        2 (.Number (Q.ofInt 0))) 3 (.Number (Q.ofInt 99))) 0
          (.Array [.Number (Q.ofInt 99)])) ∧
    (∀ r, r ≠ 0 →
      setReg (setReg (setReg (setReg build_state 0 (.Array [.Number (Q.ofInt 7)]))
        2 (.Number (Q.ofInt 0))) 3 (.Number (Q.ofInt 99))) 0
          (.Array [.Number (Q.ofInt 99)]) r =
      (setReg (setReg (setReg build_state 0 (.Array [.Number (Q.ofInt 7)]))
        2 (.Number (Q.ofInt 0))) 3 (.Number (Q.ofInt 99))) r) := by
  constructor
  · rfl
  · intro r hr
    exact (C1_theorem c1consts
      (setReg (setReg (setReg build_state 0 (.Array [.Number (Q.ofInt 7)]))
        2 (.Number (Q.ofInt 0))) 3 (.Number (Q.ofInt 99))) 0 2 3 _).2 rfl r hr

/-- Claim C3: at a `JumpIfFalseRelative`/`JumpIfTrueRelative` at position
p with offset k, a branch-taking Boolean in the test register continues
execution at p + k + 1 (offset plus the loop's unconditional increment),
a non-taking Boolean continues at p + 1, and a non-Boolean test value is
the fatal non-boolean error. -/
theorem C3_theorem : ∀ (consts : List Data) (prog : List Opcode) (p : Nat)
    (t : Register) (k : Int) (regs : Regs) (fuel : Nat),
    (prog.get? p = some (.JumpIfFalseRelative t k) →
      (regs t = .Boolean false →
        runAux consts (fuel + 1) prog p regs =
          runAux consts fuel prog ((p : Int) + k + 1) regs) ∧
      (regs t = .Boolean true →
        runAux consts (fuel + 1) prog p regs =
          runAux consts fuel prog ((p : Int) + 1) regs) ∧
      ((∀ b, regs t ≠ .Boolean b) →
        runAux consts (fuel + 1) prog p regs =
          .fatal "non boolean value in JumpIfFalseRelative instruction")) ∧
    (prog.get? p = some (.JumpIfTrueRelative t k) →
      (regs t = .Boolean true →
        runAux consts (fuel + 1) prog p regs =
          runAux consts fuel prog ((p : Int) + k + 1) regs) ∧
      (regs t = .Boolean false →
        runAux consts (fuel + 1) prog p regs =
          runAux consts fuel prog ((p : Int) + 1) regs) ∧
      ((∀ b, regs t ≠ .Boolean b) →
        runAux consts (fuel + 1) prog p regs =
          .fatal "non boolean value in JumpIfTrueRelative instruction")) := by
  intro consts prog p t k regs fuel
  constructor
  · intro hfetch
    rw [runAux_step consts fuel prog p _ regs hfetch]
    refine ⟨?_, ?_, ?_⟩
    · intro hreg
      simp [execInstr, execOp, ipEffect, hreg]
    · intro hreg
      simp [execInstr, execOp, ipEffect, hreg]
    · intro hreg
      cases hv : regs t with
      | Number x => simp [execInstr, execOp, ipEffect, hv]
      | Character c => simp [execInstr, execOp, ipEffect, hv]
      | Boolean b => exact absurd hv (hreg b)
      | Array xs => simp [execInstr, execOp, ipEffect, hv]
  · intro hfetch
    rw [runAux_step consts fuel prog p _ regs hfetch]
    refine ⟨?_, ?_, ?_⟩
    · intro hreg
      simp [execInstr, execOp, ipEffect, hreg]
    · intro hreg
      simp [execInstr, execOp, ipEffect, hreg]
    · intro hreg
      cases hv : regs t with
      | Number x => simp [execInstr, execOp, ipEffect, hv]
      | Character c => simp [execInstr, execOp, ipEffect, hv]
      | Boolean b => exact absurd hv (hreg b)
      | Array xs => simp [execInstr, execOp, ipEffect, hv]

/-- Claim C3 witness: a taken `JumpIfFalseRelative` with offset 2 at
position 0 continues at position 3. -/
theorem C3_witness :
    runAux [] 4 [.JumpIfFalseRelative 0 2, .LoadLiteral 1 5, .LoadLiteral 1 6,
      .LoadLiteral 1 7] 0 (setReg build_state 0 (.Boolean false)) =
    runAux [] 3 [.JumpIfFalseRelative 0 2, .LoadLiteral 1 5, .LoadLiteral 1 6,
      .LoadLiteral 1 7] 3 (setReg build_state 0 (.Boolean false)) := by
  have h := ((C3_theorem [] [.JumpIfFalseRelative 0 2, .LoadLiteral 1 5, .LoadLiteral 1 6,
    .LoadLiteral 1 7] 0 0 2 (setReg build_state 0 (.Boolean false)) 3).1 rfl).1 (by decide)
  simpa using h

/-- Claim C9: the `Len` builtin (syscall id 2) reads the register above
its argument register; an array yields its element count as a `Number`
written into the argument register — in particular a freshly loaded
string constant of length n yields `Number n` — while a `Number`
argument is the fatal "Only array types have a length" error that halts
the run. -/
theorem C9_theorem : ∀ (consts : List Data) (regs : Regs) (reg : Nat),
    (∀ xs, regs (reg + 1) = .Array xs →
      execOp (.SysCall reg 2) consts regs =
        .ok (setReg regs reg (.Number (Q.ofNat xs.length)))) ∧
    (∀ (chars : List Char) (cd : CompileData), ∃ code cd' regs',
      compile_value (.str chars) (reg + 1) cd = .ok (code, cd') ∧
      execList cd'.constant_table (code ++ [.SysCall reg 2]) regs = .ok regs' ∧
      regs' reg = .Number (Q.ofNat chars.length)) ∧
    (∀ x, regs (reg + 1) = .Number x →
      execOp (.SysCall reg 2) consts regs = .error "Only array types have a length") ∧
    (∀ x, regs (reg + 1) = .Number x →
      runAux consts 1 [.SysCall reg 2] 0 regs = .fatal "Only array types have a length") := by
  intro consts regs reg
  refine ⟨?_, ?_, ?_, ?_⟩
  · intro xs hx
    simp [execOp, syscall_lookups, lenFn, hx]
  · intro chars cd
    refine ⟨[.LoadLiteral (reg + 1) (cd.constant_table.length : Int),
        .CopyConstant (reg + 1) (reg + 1)],
      { cd with constant_table :=
          cd.constant_table ++ [.Array (chars.map Data.Character)] }, ?_, rfl, ?_, ?_⟩
    · exact setReg (setReg (setReg regs (reg + 1)
        (.Number (Q.ofInt (cd.constant_table.length : Int)))) (reg + 1)
        (.Array (chars.map Data.Character))) reg
        (.Number (Q.ofNat (chars.map Data.Character).length))
    · have e2 : execOp (.CopyConstant (reg + 1) (reg + 1))
          (cd.constant_table ++ [.Array (chars.map Data.Character)])
          (setReg regs (reg + 1) (.Number (Q.ofInt (cd.constant_table.length : Int)))) =
          .ok (setReg (setReg regs (reg + 1)
            (.Number (Q.ofInt (cd.constant_table.length : Int)))) (reg + 1)
            (.Array (chars.map Data.Character))) := by
        simp [execOp, setReg_self, asUsize_ofInt_natCast, List.getElem?_concat_length]
      have e3 : execOp (.SysCall reg 2)
          (cd.constant_table ++ [.Array (chars.map Data.Character)])
          (setReg (setReg regs (reg + 1)
            (.Number (Q.ofInt (cd.constant_table.length : Int)))) (reg + 1)
            (.Array (chars.map Data.Character))) =
          .ok (setReg (setReg (setReg regs (reg + 1)
            (.Number (Q.ofInt (cd.constant_table.length : Int)))) (reg + 1)
            (.Array (chars.map Data.Character))) reg
            (.Number (Q.ofNat (chars.map Data.Character).length))) := by
        simp [execOp, syscall_lookups, lenFn, setReg_self]
      have e1 : execOp (.LoadLiteral (reg + 1) (cd.constant_table.length : Int))
          (cd.constant_table ++ [.Array (chars.map Data.Character)]) regs =
          .ok (setReg regs (reg + 1)
            (.Number (Q.ofInt (cd.constant_table.length : Int)))) := rfl
      simp only [List.cons_append, List.nil_append]
      rw [execList_cons_ok _ _ _ _ _ e1, execList_cons_ok _ _ _ _ _ e2,
        execList_cons_ok _ _ _ _ _ e3]
      rfl
    · simp [setReg_self]
  · intro x hx
    simp [execOp, syscall_lookups, lenFn, hx]
  · intro x hx
    have h := runAux_step consts 0 [.SysCall reg 2] 0 (.SysCall reg 2) regs rfl
    simp only [Nat.cast_zero] at h
    rw [h]
    simp [execInstr, execOp, syscall_lookups, lenFn, hx]

/-- Claim C9 witness: `Len` of a two-character string in r1 writes
`Number 2` into r0; `Len` of a `Number` is the fatal error. -/
theorem C9_witness :
    execOp (.SysCall 0 2) [] (setReg build_state 1 (.Array [.Character 'a', .Character 'b'])) =
      .ok (setReg (setReg build_state 1 (.Array [.Character 'a', .Character 'b'])) 0
        (.Number (Q.ofNat 2))) ∧
    execOp (.SysCall 0 2) [] (setReg build_state 1 (.Number (Q.ofInt 9))) =
      .error "Only array types have a length" := by
  constructor
  · have h := (C9_theorem [] (setReg build_state 1 (.Array [.Character 'a', .Character 'b'])) 0).1
      [.Character 'a', .Character 'b'] (by decide)
    simpa using h
  · exact (C9_theorem [] (setReg build_state 1 (.Number (Q.ofInt 9))) 0).2.2.1
      (Q.ofInt 9) (by decide)

theorem ipEffect_noJump (op : Opcode) (regs : Regs) (ip : Int) (h : noJump op) :
    ipEffect op regs ip = ip + 1 := by
  cases op <;> first
    | rfl
    | simp [noJump] at h

/-- Jump-free code executed by the interpreter loop from the end of a
prefix runs exactly like the straight-line executor and falls off the
end. -/
theorem runAux_of_execList : ∀ (rest pre : List Opcode) (consts : List Data)
    (regs regs' : Regs) (fuel : Nat),
    (∀ op ∈ rest, noJump op) → rest.length < fuel →
    execList consts rest regs = .ok regs' →
    runAux consts fuel (pre ++ rest) (pre.length : Int) regs = .done regs' := by
  intro rest
  induction rest with
  | nil =>
    intro pre consts regs regs' fuel hnj hfuel hex
    simp only [execList] at hex
    injection hex with hex
    subst hex
    obtain ⟨f, rfl⟩ : ∃ f, fuel = f + 1 := ⟨fuel - 1, by omega⟩
    simp [runAux]
  | cons op rest' ih =>
    intro pre consts regs regs' fuel hnj hfuel hex
    obtain ⟨f, rfl⟩ : ∃ f, fuel = f + 1 := ⟨fuel - 1, by omega⟩
    have hfetch : (pre ++ op :: rest').get? pre.length = some op := by
      rw [List.get?_append_right (le_refl _)]
      simp
    rw [runAux_step consts f (pre ++ op :: rest') pre.length op regs hfetch]
    simp only [execList] at hex
    cases hop : execOp op consts regs with
    | error e => simp [hop] at hex
    | ok regs1 =>
      simp only [hop] at hex
      have hinstr : execInstr op consts regs (pre.length : Int) =
          .ok (regs1, (pre.length : Int) + 1) := by
        simp [execInstr, hop, ipEffect_noJump op regs _ (hnj op (by simp))]
      rw [hinstr]
      show runAux consts f (pre ++ op :: rest') ((pre.length : Int) + 1) regs1 = .done regs'
      have h1 : ((pre.length : Int) + 1) = (((pre ++ [op]).length : Nat) : Int) := by
        simp
      have h2 : pre ++ op :: rest' = (pre ++ [op]) ++ rest' := by simp
      rw [h1, h2]
      refine ih (pre ++ [op]) consts regs1 regs' f
        (fun o ho => hnj o (by simp [ho])) ?_ hex
      simp only [List.length_cons] at hfuel
      omega

theorem fixupList_append_ok : ∀ (xs ys : List Opcode) (c : Nat)
    (fx : List Opcode) (c1 : Nat) (fy : List Opcode) (c2 : Nat),
    fixupList xs c = .ok (fx, c1) → fixupList ys c1 = .ok (fy, c2) →
    fixupList (xs ++ ys) c = .ok (fx ++ fy, c2) := by
  intro xs
  induction xs with
  | nil =>
    intro ys c fx c1 fy c2 h1 h2
    simp only [fixupList] at h1
    simp at h1
    obtain ⟨hfx, hc⟩ := h1
    subst hfx
    subst hc
    simpa using h2
  | cons o xs' ih =>
    intro ys c fx c1 fy c2 h1 h2
    simp only [fixupList] at h1
    cases hs : fixupStep c o with
    | error e => rw [hs, errBind] at h1; exact Except.noConfusion h1
    | ok p =>
      obtain ⟨o', ca⟩ := p
      rw [hs, okBind] at h1
      cases hrest : fixupList xs' ca with
      | error e => rw [hrest, errBind] at h1; exact Except.noConfusion h1
      | ok p2 =>
        obtain ⟨rest', cb⟩ := p2
        rw [hrest, okBind] at h1
        simp at h1
        obtain ⟨hfx, hc⟩ := h1
        subst hfx
        subst hc
        have hih := ih ys ca rest' cb fy c2 hrest h2
        show fixupList (o :: (xs' ++ ys)) c = .ok ((o' :: rest') ++ fy, c2)
        simp only [fixupList]
        rw [hs, okBind, hih, okBind]
        simp

theorem execList_append_ok : ∀ (xs ys : List Opcode) (consts : List Data)
    (regs regs1 regs2 : Regs),
    execList consts xs regs = .ok regs1 → execList consts ys regs1 = .ok regs2 →
    execList consts (xs ++ ys) regs = .ok regs2 := by
  intro xs
  induction xs with
  | nil =>
    intro ys consts regs regs1 regs2 h1 h2
    simp only [execList] at h1
    injection h1 with h1
    subst h1
    simpa using h2
  | cons o xs' ih =>
    intro ys consts regs regs1 regs2 h1 h2
    simp only [execList] at h1
    cases hop : execOp o consts regs with
    | error e => simp [hop] at h1
    | ok regsa =>
      simp only [hop] at h1
      show execList consts (o :: (xs' ++ ys)) regs = .ok regs2
      rw [execList_cons_ok consts o (xs' ++ ys) regs regsa hop]
      exact ih ys consts regsa regs1 regs2 h1 h2

theorem execOp_arith (op : BinOp) (d i1 i2 : Nat) (consts : List Data) (regs : Regs)
    (x y : Q) (h1 : regs i1 = .Number x) (h2 : regs i2 = .Number y) :
    execOp (arithOpcode op d i1 i2) consts regs =
      .ok (setReg regs d (.Number (evalOpQ op x y))) := by
  cases op <;> simp [arithOpcode, execOp, evalOpQ, h1, h2]

/-- Core expression-compilation correctness for literal-only trees: the
climbing pass is pure, the fix-up pass ends one above its starting
cursor, and executing the fixed code computes the tree's value into the
cursor register while preserving everything below it. -/
theorem exprLit_correct : ∀ (t : Expr), t.allLit → ∀ (rr c : Nat) (cd : CompileData),
    ∃ code fixed,
      linearize t rr cd = .ok (code, cd) ∧
      fixupList code c = .ok (fixed, c + 1) ∧
      (∀ op ∈ fixed, noJump op) ∧
      (∀ (consts : List Data) (regs : Regs), ∃ regs',
        execList consts fixed regs = .ok regs' ∧
        regs' c = .Number t.evalQ ∧
        ∀ r, r < c → regs' r = regs r) := by
  intro t
  induction t with
  | leaf v =>
    intro hv rr c cd
    cases v with
    | number n =>
      refine ⟨[.LoadLiteral rr n], [.LoadLiteral c n], rfl, rfl, ?_, ?_⟩
      · intro op hop
        simp at hop
        subst hop
        trivial
      · intro consts regs
        refine ⟨setReg regs c (.Number (Q.ofInt n)), rfl, by simp [setReg_self, Expr.evalQ], ?_⟩
        intro r hr
        exact setReg_ne regs _ (Nat.ne_of_lt hr)
    | ident name => exact hv.elim
    | str chars => exact hv.elim
    | arrayElement name idx => exact hv.elim
  | bin op lhs rhs ihl ihr =>
    intro hv rr c cd
    obtain ⟨lcode, lfixed, hllin, hlfix, hlnj, hlex⟩ := ihl hv.1 rr c cd
    obtain ⟨rcode, rfixed, hrlin, hrfix, hrnj, hrex⟩ := ihr hv.2 rr (c + 1) cd
    refine ⟨lcode ++ rcode ++ [arithOpcode op 0 0 0],
      lfixed ++ (rfixed ++ [arithOpcode op c c (c + 1)]), ?_, ?_, ?_, ?_⟩
    · simp only [linearize]
      rw [hllin, okBind, hrlin, okBind]
    · have hsingle : fixupList [arithOpcode op 0 0 0] (c + 2) =
          .ok ([arithOpcode op c c (c + 1)], c + 1) := by
        cases op <;> simp [fixupList, fixupStep, arithOpcode, okBind]
      have hmid := fixupList_append_ok rcode [arithOpcode op 0 0 0] (c + 1)
        rfixed (c + 2) [arithOpcode op c c (c + 1)] (c + 1) hrfix hsingle
      have hall := fixupList_append_ok lcode (rcode ++ [arithOpcode op 0 0 0]) c
        lfixed (c + 1) (rfixed ++ [arithOpcode op c c (c + 1)]) (c + 1) hlfix hmid
      rw [List.append_assoc]
      exact hall
    · intro op' hop'
      simp only [List.mem_append, List.mem_singleton] at hop'
      rcases hop' with h | h | h
      · exact hlnj op' h
      · exact hrnj op' h
      · subst h
        cases op <;> trivial
    · intro consts regs
      obtain ⟨regs1, hex1, hval1, hpre1⟩ := hlex consts regs
      obtain ⟨regs2, hex2, hval2, hpre2⟩ := hrex consts regs1
      have hl2 : regs2 c = .Number lhs.evalQ := by
        rw [hpre2 c (Nat.lt_succ_self c), hval1]
      have hstep : execOp (arithOpcode op c c (c + 1)) consts regs2 =
          .ok (setReg regs2 c (.Number (evalOpQ op lhs.evalQ rhs.evalQ))) :=
        execOp_arith op c c (c + 1) consts regs2 _ _ hl2 hval2
      refine ⟨setReg regs2 c (.Number (evalOpQ op lhs.evalQ rhs.evalQ)), ?_,
        by simp [setReg_self, Expr.evalQ], ?_⟩
      · refine execList_append_ok lfixed (rfixed ++ [arithOpcode op c c (c + 1)])
          consts regs regs1 _ hex1 ?_
        refine execList_append_ok rfixed [arithOpcode op c c (c + 1)]
          consts regs1 regs2 _ hex2 ?_
        rw [execList_cons_ok consts _ [] regs2 _ hstep]
        rfl
      · intro r hr
        rw [setReg_ne _ _ (Nat.ne_of_lt hr), hpre2 r (Nat.lt_succ_of_lt hr),
          hpre1 r hr]

theorem climbAux_lit : ∀ (fuel : Nat) (lhs : Expr) (rest : List (BinOp × ValueNode))
    (minPrec : Nat), lhs.allLit → (∀ p ∈ rest, (p.2 : ValueNode).isNumber) →
    (climbAux fuel lhs rest minPrec).1.allLit ∧
    (∀ p ∈ (climbAux fuel lhs rest minPrec).2, (p.2 : ValueNode).isNumber) := by
  intro fuel
  induction fuel with
  | zero =>
    intro lhs rest minPrec hl hr
    exact ⟨hl, hr⟩
  | succ f ih =>
    intro lhs rest minPrec hl hr
    cases rest with
    | nil =>
      refine ⟨hl, ?_⟩
      intro p hp
      simp [climbAux] at hp
    | cons hd rest' =>
      obtain ⟨op, v⟩ := hd
      by_cases hp : precOf op < minPrec
      · simp only [climbAux, if_pos hp]
        exact ⟨hl, hr⟩
      · simp only [climbAux, if_neg hp]
        have hv : (v : ValueNode).isNumber := hr (op, v) (by simp)
        have hrest' : ∀ p ∈ rest', (p.2 : ValueNode).isNumber :=
          fun p hp2 => hr p (by simp [hp2])
        obtain ⟨ha, hb⟩ := ih (.leaf v) rest'
          (if isRightAssoc op then precOf op else precOf op + 1) hv hrest'
        cases hc : climbAux f (.leaf v) rest'
            (if isRightAssoc op then precOf op else precOf op + 1) with
        | mk rhs rest2 =>
          rw [hc] at ha hb
          exact ih (.bin op lhs rhs) rest2 minPrec ⟨hl, ha⟩ hb

theorem climbTree_lit (e : FlatExpr) (h : e.allLit) : (climbTree e).allLit :=
  (climbAux_lit (2 * e.rest.length + 1) (.leaf e.first) e.rest 0 h.1 h.2).1

theorem compile_expression_lit (e : FlatExpr) (hlit : e.allLit) (rr : Nat)
    (cd : CompileData) :
    ∃ fixed, compile_expression e rr cd = .ok (fixed, cd) ∧
      (∀ op ∈ fixed, noJump op) ∧
      (∀ (consts : List Data) (regs : Regs), ∃ regs',
        execList consts fixed regs = .ok regs' ∧
        regs' rr = .Number (climbTree e).evalQ ∧
        ∀ r, r < rr → regs' r = regs r) := by
  obtain ⟨code, fixed, hlin, hfix, hnj, hexec⟩ :=
    exprLit_correct (climbTree e) (climbTree_lit e hlit) rr rr cd
  refine ⟨fixed, ?_, hnj, hexec⟩
  simp only [compile_expression]
  rw [hlin, okBind, hfix, okBind]

theorem specLookup_append (P : List (String × FlatExpr)) (n : String) (e : FlatExpr)
    (m : String) :
    specLookup (P ++ [(n, e)]) m =
      if m = n then some (climbTree e).evalQ else specLookup P m := by
  by_cases hm : m = n
  · subst hm
    simp [specLookup, List.filter_append, List.getLast?_concat]
  · have hne : ¬ (n = m) := fun hc => hm hc.symm
    simp [specLookup, List.filter_append, hm, hne]

/-- Compiling and executing one literal assignment preserves the
invariant, extending the spec environment. -/
theorem assign_step (P : List (String × FlatExpr)) (n : String) (e : FlatExpr)
    (cd : CompileData) (regs : Regs) (consts : List Data)
    (hinv : Inv P cd regs) (hlit : e.allLit) :
    ∃ code cd', compile_assignment (.ident n) e cd = .ok (code, cd') ∧
      (∀ op ∈ code, noJump op) ∧
      cd'.constant_table = cd.constant_table ∧
      ∃ regs', execList consts code regs = .ok regs' ∧ Inv (P ++ [(n, e)]) cd' regs' := by
  obtain ⟨fixed, hce, hnj, hexec⟩ :=
    compile_expression_lit e hlit cd.first_unused_register cd
  obtain ⟨regs1, hex1, hval1, hpre1⟩ := hexec consts regs
  obtain ⟨hrange, hinj, hvals⟩ := hinv
  cases hl : cd.variable_lookup.lookup n with
  | some x =>
    refine ⟨fixed ++ [.CopyRegister x cd.first_unused_register], cd, ?_, ?_, rfl, ?_⟩
    · simp [compile_assignment, hce, okBind, hl]
    · intro op hop
      simp only [List.mem_append, List.mem_singleton] at hop
      rcases hop with h | h
      · exact hnj op h
      · subst h
        trivial
    · have hx : x < cd.first_unused_register := hrange n x hl
      have hcopy : execOp (.CopyRegister x cd.first_unused_register) consts regs1 =
          .ok (setReg regs1 x (regs1 cd.first_unused_register)) := rfl
      refine ⟨setReg regs1 x (regs1 cd.first_unused_register), ?_, hrange, hinj, ?_⟩
      · refine execList_append_ok fixed _ consts regs regs1 _ hex1 ?_
        rw [execList_cons_ok consts _ [] regs1 _ hcopy]
        rfl
      · intro m r hm
        rw [specLookup_append]
        by_cases hmn : m = n
        · subst hmn
          have hrx : r = x := by
            rw [hl] at hm
            injection hm with h
            exact h.symm
          subst hrx
          rw [if_pos rfl]
          refine ⟨(climbTree e).evalQ, rfl, ?_⟩
          rw [setReg_self, hval1]
        · rw [if_neg hmn]
          have hrx : r ≠ x := fun hrx => hmn (hinj m n x (hrx ▸ hm) hl)
          rw [setReg_ne _ _ hrx, hpre1 r (hrange m r hm)]
          exact hvals m r hm
  | none =>
    refine ⟨fixed, { cd with
      variable_lookup := (n, cd.first_unused_register) :: cd.variable_lookup,
      first_unused_register := cd.first_unused_register + 1 }, ?_, hnj, rfl, ?_⟩
    · simp [compile_assignment, hce, okBind, hl]
    · refine ⟨regs1, hex1, ?_, ?_, ?_⟩
      · intro m r hm
        rw [List.lookup_cons] at hm
        by_cases hmn : m = n
        · subst hmn
          simp at hm
          subst hm
          exact Nat.lt_succ_self _
        · simp [beq_eq_false_iff_ne.mpr hmn] at hm
          exact Nat.lt_succ_of_lt (hrange m r hm)
      · intro m1 m2 r hm1 hm2
        rw [List.lookup_cons] at hm1 hm2
        by_cases h1 : m1 = n <;> by_cases h2 : m2 = n
        · rw [h1, h2]
        · rw [h1] at hm1
          simp at hm1
          simp [beq_eq_false_iff_ne.mpr h2] at hm2
          exact absurd (hrange m2 r hm2) (by rw [hm1]; exact Nat.lt_irrefl r)
        · rw [h2] at hm2
          simp at hm2
          simp [beq_eq_false_iff_ne.mpr h1] at hm1
          exact absurd (hrange m1 r hm1) (by rw [hm2]; exact Nat.lt_irrefl r)
        · simp [beq_eq_false_iff_ne.mpr h1] at hm1
          simp [beq_eq_false_iff_ne.mpr h2] at hm2
          exact hinj m1 m2 r hm1 hm2
      · intro m r hm
        rw [List.lookup_cons] at hm
        rw [specLookup_append]
        by_cases hmn : m = n
        · subst hmn
          simp at hm
          subst hm
          rw [if_pos rfl]
          exact ⟨(climbTree e).evalQ, rfl, hval1⟩
        · simp [beq_eq_false_iff_ne.mpr hmn] at hm
          rw [if_neg hmn, hpre1 r (hrange m r hm)]
          exact hvals m r hm

/-- Folding `assign_step` over a whole literal-assignment program:
compiling the statement list threads the invariant through. -/
theorem prog_fold : ∀ (P2 P1 : List (String × FlatExpr)) (cd : CompileData)
    (regs : Regs) (consts : List Data),
    Inv P1 cd regs → (∀ p ∈ P2, (p.2 : FlatExpr).allLit) →
    ∃ code cd', compile_program (P2.map mkAssign) cd = .ok (code, cd') ∧
      (∀ op ∈ code, noJump op) ∧
      cd'.constant_table = cd.constant_table ∧
      ∃ regs', execList consts code regs = .ok regs' ∧ Inv (P1 ++ P2) cd' regs' := by
  intro P2
  induction P2 with
  | nil =>
    intro P1 cd regs consts hinv hlit
    refine ⟨[], cd, rfl, ?_, rfl, regs, rfl, by simpa using hinv⟩
    intro op hop
    exact absurd hop (List.not_mem_nil op)
  | cons p rest ih =>
    intro P1 cd regs consts hinv hlit
    obtain ⟨n, e⟩ := p
    obtain ⟨code1, cd1, hc1, hnj1, hct1, regs1, hex1, hinv1⟩ :=
      assign_step P1 n e cd regs consts hinv (hlit (n, e) (by simp))
    obtain ⟨code2, cd2, hc2, hnj2, hct2, regs2, hex2, hinv2⟩ :=
      ih (P1 ++ [(n, e)]) cd1 regs1 consts hinv1
        (fun q hq => hlit q (by simp [hq]))
    refine ⟨code1 ++ code2, cd2, ?_, ?_, ?_, regs2, ?_, ?_⟩
    · simp only [List.map_cons, mkAssign, compile_program, compile_stmt, hc1, okBind, hc2]
    · intro op hop
      rcases List.mem_append.mp hop with h | h
      · exact hnj1 op h
      · exact hnj2 op h
    · rw [hct2, hct1]
    · exact execList_append_ok code1 code2 consts regs regs1 regs2 hex1 hex2
    · simpa [List.append_assoc] using hinv2

/-- Claim C4: the `i = 0; while (i < 3) do i = i + 1` program compiles
to the literal load followed by the while layout — comparison, forward
`JumpIfFalseRelative` with offset body+comparison+2, body, a second copy
of the comparison, backward `JumpIfTrueRelative` with offset
-(body+comparison+1) — and executing it terminates normally with
`Number 3` in i's register (register 0) after exactly 3 executions of
the body (position 5, the body's first instruction, is fetched 3
times). -/
theorem C4_theorem :
    compile_program c4prog build_compile_data = .ok (c4code, c4cd) ∧
    c4cd.variable_lookup.lookup "i" = some 0 ∧
    c4code =
      [.LoadLiteral 0 0] ++ c4cmp ++
      [.JumpIfFalseRelative 1 ((c4body.length : Int) + (c4cmp.length : Int) + 2)] ++
      c4body ++ c4cmp ++
      [.JumpIfTrueRelative 1 (-((c4body.length : Int) + (c4cmp.length : Int) + 1))] ∧
    resultReg (execute_program 40 c4code c4cd) 0 = some (.Number (Q.ofInt 3)) ∧
    (fetchTrace c4cd.constant_table 40 c4code 0 build_state).count 5 = 3 := by
  refine ⟨rfl, by decide, by decide, by decide, by decide⟩

theorem qnorm_wf (n : Int) (d : Nat) : (qnorm n d).Wf := by
  by_cases hd : d = 0
  · simp [qnorm, hd, Q.Wf]
  · have hg : 0 < Nat.gcd n.natAbs d := Nat.gcd_pos_of_pos_right _ (Nat.pos_of_ne_zero hd)
    have hdvd : Nat.gcd n.natAbs d ∣ d := Nat.gcd_dvd_right _ _
    have hdvdn : (Nat.gcd n.natAbs d : Int) ∣ n := by
      refine dvd_trans ?_ (Int.natAbs_dvd.mpr dvd_rfl)
      exact_mod_cast Nat.gcd_dvd_left n.natAbs d
    have hwf : (qnorm n d) =
        ⟨Int.tdiv n (Nat.gcd n.natAbs d), d / Nat.gcd n.natAbs d⟩ := by
      simp [qnorm, hd]
    rw [hwf]
    have hden : 0 < d / Nat.gcd n.natAbs d :=
      Nat.div_pos (Nat.le_of_dvd (Nat.pos_of_ne_zero hd) hdvd) hg
    have habs : (Int.tdiv n (Nat.gcd n.natAbs d)).natAbs =
        n.natAbs / Nat.gcd n.natAbs d := by
      rw [Int.tdiv_eq_ediv_of_dvd hdvdn, Int.natAbs_ediv n _ hdvdn,
        Int.natAbs_ofNat]
    refine ⟨hden.ne', ?_⟩
    show (Int.tdiv n (Nat.gcd n.natAbs d)).natAbs.Coprime (d / Nat.gcd n.natAbs d)
    rw [habs]
    exact Nat.coprime_div_gcd_div_gcd hg

theorem qnorm_toRat (n : Int) (d : Nat) : (qnorm n d).toRat = (n : ℚ) / (d : ℚ) := by
  by_cases hd : d = 0
  · simp [qnorm, hd, Q.toRat]
  · have hg : 0 < Nat.gcd n.natAbs d := Nat.gcd_pos_of_pos_right _ (Nat.pos_of_ne_zero hd)
    have hdvd : Nat.gcd n.natAbs d ∣ d := Nat.gcd_dvd_right _ _
    have hdvdn : (Nat.gcd n.natAbs d : Int) ∣ n := by
      refine dvd_trans ?_ (Int.natAbs_dvd.mpr dvd_rfl)
      exact_mod_cast Nat.gcd_dvd_left n.natAbs d
    have hgq : ((Nat.gcd n.natAbs d : ℚ)) ≠ 0 := by positivity
    have hdq : ((d : ℚ)) ≠ 0 := by
      exact_mod_cast hd
    simp only [qnorm, hd, if_false, Q.toRat]
    rw [Int.tdiv_eq_ediv_of_dvd hdvdn]
    rw [show (((n / (Nat.gcd n.natAbs d : Int) : ℤ)) : ℚ) =
      (n : ℚ) / (Nat.gcd n.natAbs d : ℚ) from Int.cast_div hdvdn (by exact_mod_cast hgq)]
    rw [Nat.cast_div hdvd hgq]
    field_simp

theorem Q.toRat_ofInt (n : Int) : (Q.ofInt n).toRat = (n : ℚ) := by
  simp [Q.ofInt, Q.toRat]

theorem Q.ofInt_wf (n : Int) : (Q.ofInt n).Wf := by
  exact ⟨one_ne_zero, Nat.coprime_one_right _⟩

theorem Q.toRat_add (a b : Q) (ha : a.den ≠ 0) (hb : b.den ≠ 0) :
    (qadd a b).toRat = a.toRat + b.toRat := by
  rw [qadd, qnorm_toRat, Q.toRat, Q.toRat]
  have ha' : ((a.den : ℚ)) ≠ 0 := by exact_mod_cast ha
  have hb' : ((b.den : ℚ)) ≠ 0 := by exact_mod_cast hb
  push_cast
  field_simp

theorem Q.toRat_sub (a b : Q) (ha : a.den ≠ 0) (hb : b.den ≠ 0) :
    (qsub a b).toRat = a.toRat - b.toRat := by
  rw [qsub, qnorm_toRat, Q.toRat, Q.toRat]
  have ha' : ((a.den : ℚ)) ≠ 0 := by exact_mod_cast ha
  have hb' : ((b.den : ℚ)) ≠ 0 := by exact_mod_cast hb
  push_cast
  field_simp
  all_goals ring

theorem Q.toRat_mul (a b : Q) (ha : a.den ≠ 0) (hb : b.den ≠ 0) :
    (qmul a b).toRat = a.toRat * b.toRat := by
  rw [qmul, qnorm_toRat, Q.toRat, Q.toRat]
  push_cast
  field_simp

theorem Q.toRat_div (a b : Q) (ha : a.den ≠ 0) (hb : b.den ≠ 0) :
    (qdiv a b).toRat = a.toRat / b.toRat := by
  have ha' : ((a.den : ℚ)) ≠ 0 := by exact_mod_cast ha
  have hb' : ((b.den : ℚ)) ≠ 0 := by exact_mod_cast hb
  rcases lt_trichotomy b.num 0 with hneg | hzero | hpos
  · rw [qdiv, qnorm_toRat]
    simp only [Q.toRat]
    rw [Int.sign_eq_neg_one_of_neg hneg]
    have habs : ((b.num.natAbs : ℚ)) = -(b.num : ℚ) := by
      rw [Int.cast_natAbs, abs_of_neg hneg, Int.cast_neg]
    have hbn : ((b.num : ℚ)) ≠ 0 := by
      simp only [ne_eq, Int.cast_eq_zero]
      omega
    push_cast
    rw [habs]
    field_simp
  · rw [qdiv, hzero]
    simp only [Int.sign_zero, mul_zero, zero_mul, Int.natAbs_zero]
    rw [qnorm_toRat]
    rw [show (b.toRat) = 0 from by rw [Q.toRat, hzero]; simp]
    simp
  · rw [qdiv, qnorm_toRat]
    simp only [Q.toRat]
    rw [Int.sign_eq_one_of_pos hpos]
    have habs : ((b.num.natAbs : ℚ)) = (b.num : ℚ) := by
      rw [Int.cast_natAbs, abs_of_pos hpos]
    have hbn : ((b.num : ℚ)) ≠ 0 := by
      simp only [ne_eq, Int.cast_eq_zero]
      omega
    push_cast
    rw [habs]
    field_simp

theorem ipow_eq (b : Int) (n : Nat) : ipow b n = b ^ n := by
  induction n with
  | zero => simp [ipow]
  | succ m ih => rw [ipow, ih, pow_succ, mul_comm]

theorem npow_eq (b : Nat) (n : Nat) : npow b n = b ^ n := by
  induction n with
  | zero => simp [npow]
  | succ m ih => rw [npow, ih, pow_succ, mul_comm]

theorem Q.toRat_npow (a : Q) (n : Nat) (ha : a.den ≠ 0) :
    (qnpow a n).toRat = a.toRat ^ n := by
  rw [qnpow, qnorm_toRat, Q.toRat, ipow_eq, npow_eq, div_pow]
  push_cast
  rfl

theorem Q.toRat_inv (a : Q) (ha : a.den ≠ 0) : (qinv a).toRat = (a.toRat)⁻¹ := by
  have ha' : ((a.den : ℚ)) ≠ 0 := by exact_mod_cast ha
  by_cases hz : a.num = 0
  · simp [qinv, hz, Q.toRat]
  · rcases lt_trichotomy a.num 0 with hneg | hzero | hpos
    · rw [qinv, if_neg hz]
      simp only [Q.toRat]
      simp only [Int.sign_eq_neg_one_of_neg hneg]
      have habs : ((a.num.natAbs : ℚ)) = -(a.num : ℚ) := by
        rw [Int.cast_natAbs, abs_of_neg hneg, Int.cast_neg]
      have han : ((a.num : ℚ)) ≠ 0 := by
        simp only [ne_eq, Int.cast_eq_zero]
        omega
      rw [inv_div]
      push_cast
      rw [habs]
      field_simp
    · exact absurd hzero hz
    · rw [qinv, if_neg hz]
      simp only [Q.toRat]
      simp only [Int.sign_eq_one_of_pos hpos]
      have habs : ((a.num.natAbs : ℚ)) = (a.num : ℚ) := by
        rw [Int.cast_natAbs, abs_of_pos hpos]
      rw [inv_div]
      push_cast
      rw [habs]
      ring

theorem Q.toRat_mk' (y : Q) (hy : y.Wf) :
    y.toRat = Rat.mk' y.num y.den hy.1 hy.2 := by
  rw [Q.toRat, Rat.mk'_eq_divInt, Rat.divInt_eq_div]
  norm_num

theorem qinv_wf (a : Q) (ha : a.Wf) : (qinv a).Wf := by
  by_cases hz : a.num = 0
  · simp only [qinv, hz, if_pos rfl]
    exact ⟨one_ne_zero, Nat.coprime_one_right _⟩
  · simp only [qinv, if_neg hz]
    refine ⟨by simpa using hz, ?_⟩
    show (Int.sign a.num * a.den).natAbs.Coprime a.num.natAbs
    rw [Int.natAbs_mul, Int.natAbs_sign_of_nonzero hz, one_mul, Int.natAbs_ofNat]
    exact (ha.2).symm

theorem qpowf_wf (x y : Q) : (qpowf x y).Wf := by
  rw [qpowf]
  by_cases h1 : y.den = 1
  · rw [if_pos h1]
    by_cases h2 : 0 ≤ y.num
    · rw [if_pos h2]
      exact qnorm_wf _ _
    · rw [if_neg h2]
      exact qinv_wf _ (qnorm_wf _ _)
  · rw [if_neg h1]
    exact ⟨one_ne_zero, Nat.coprime_one_right _⟩

theorem Q.toRat_powf (x y : Q) (hx : x.den ≠ 0) (hy : y.Wf) :
    (qpowf x y).toRat = ratPowf x.toRat y.toRat := by
  have hden : (y.toRat).den = y.den := by rw [Q.toRat_mk' y hy]
  have hnum : (y.toRat).num = y.num := by rw [Q.toRat_mk' y hy]
  rw [qpowf, ratPowf, hden, hnum]
  by_cases h1 : y.den = 1
  · rw [if_pos h1, if_pos h1]
    by_cases h2 : 0 ≤ y.num
    · rw [if_pos h2, Q.toRat_npow x _ hx]
      rw [show x.toRat ^ y.num = x.toRat ^ ((y.num.toNat : ℕ) : ℤ) from by
        rw [Int.toNat_of_nonneg h2]]
      rw [zpow_natCast]
    · rw [if_neg h2]
      have hw : (qnpow x ((-y.num).toNat)).den ≠ 0 := by
        rw [qnpow]
        exact (qnorm_wf _ _).1
      rw [Q.toRat_inv _ hw, Q.toRat_npow x _ hx]
      rw [show x.toRat ^ y.num = (x.toRat ^ (((-y.num).toNat : ℕ) : ℤ))⁻¹ from by
        rw [← zpow_neg]
        congr 1
        omega]
      rw [zpow_natCast]
  · rw [if_neg h1, if_neg h1]
    simp [Q.toRat]

theorem evalQ_wf_toRat : ∀ t : Expr, t.allLit →
    (t.evalQ).Wf ∧ (t.evalQ).toRat = t.evalRat := by
  intro t
  induction t with
  | leaf v =>
    intro hv
    cases v with
    | number n =>
      exact ⟨Q.ofInt_wf n, by rw [Expr.evalQ, Expr.evalRat, Q.toRat_ofInt]⟩
    | ident name => exact hv.elim
    | str chars => exact hv.elim
    | arrayElement name idx => exact hv.elim
  | bin op lhs rhs ihl ihr =>
    intro hv
    obtain ⟨hwl, hrl⟩ := ihl hv.1
    obtain ⟨hwr, hrr⟩ := ihr hv.2
    rw [Expr.evalQ, Expr.evalRat]
    cases op with
    | add =>
      exact ⟨qnorm_wf _ _, by
        rw [evalOpQ, evalOpRat, Q.toRat_add _ _ hwl.1 hwr.1, hrl, hrr]⟩
    | subtract =>
      exact ⟨qnorm_wf _ _, by
        rw [evalOpQ, evalOpRat, Q.toRat_sub _ _ hwl.1 hwr.1, hrl, hrr]⟩
    | multiply =>
      exact ⟨qnorm_wf _ _, by
        rw [evalOpQ, evalOpRat, Q.toRat_mul _ _ hwl.1 hwr.1, hrl, hrr]⟩
    | divide =>
      exact ⟨qnorm_wf _ _, by
        rw [evalOpQ, evalOpRat, Q.toRat_div _ _ hwl.1 hwr.1, hrl, hrr]⟩
    | power =>
      exact ⟨qpowf_wf _ _, by
        rw [evalOpQ, evalOpRat, Q.toRat_powf _ _ hwl.1 hwr, hrl, hrr]⟩

theorem specLookupRat_eq (stmts : List (String × FlatExpr))
    (h : ∀ p ∈ stmts, (p.2 : FlatExpr).allLit) (name : String) :
    specLookupRat stmts name = (specLookup stmts name).map Q.toRat := by
  rw [specLookupRat, specLookup]
  cases hl : (stmts.filter fun p => p.1 = name).getLast? with
  | none => simp
  | some p =>
    simp only [Option.map_some']
    have hp : p ∈ stmts :=
      List.mem_of_mem_filter (List.mem_of_mem_getLast? (by rw [hl]; exact rfl))
    have hq := (evalQ_wf_toRat (climbTree p.2) (climbTree_lit p.2 (h p hp))).2
    rw [FlatExpr.mathValue, hq]

theorem compile_value_cd (v : ValueNode) (rr : Register) (cd : CompileData)
    (code : List Opcode) (cd' : CompileData)
    (h : compile_value v rr cd = .ok (code, cd')) :
    cd'.first_unused_register = cd.first_unused_register ∧
    cd'.variable_lookup = cd.variable_lookup := by
  cases v with
  | number n =>
    simp [compile_value] at h
    obtain ⟨-, h2⟩ := h
    subst h2
    exact ⟨rfl, rfl⟩
  | ident name =>
    cases hl : cd.variable_lookup.lookup name with
    | none => simp [compile_value, hl] at h
    | some x =>
      simp [compile_value, hl] at h
      obtain ⟨-, h2⟩ := h
      subst h2
      exact ⟨rfl, rfl⟩
  | str chars =>
    simp [compile_value] at h
    obtain ⟨-, h2⟩ := h
    subst h2
    exact ⟨rfl, rfl⟩
  | arrayElement name idx =>
    cases hl : cd.variable_lookup.lookup name with
    | none => simp [compile_value, hl] at h
    | some x =>
      simp [compile_value, hl] at h
      obtain ⟨-, h2⟩ := h
      subst h2
      exact ⟨rfl, rfl⟩

theorem linearize_cd : ∀ (t : Expr) (rr : Register) (cd : CompileData)
    (code : List Opcode) (cd' : CompileData),
    linearize t rr cd = .ok (code, cd') →
    cd'.first_unused_register = cd.first_unused_register ∧
    cd'.variable_lookup = cd.variable_lookup := by
  intro t
  induction t with
  | leaf v => intro rr cd code cd' h; exact compile_value_cd v rr cd code cd' h
  | bin op lhs rhs ihl ihr =>
    intro rr cd code cd' h
    simp only [linearize] at h
    cases h1 : linearize lhs rr cd with
    | error e => rw [h1, errBind] at h; exact Except.noConfusion h
    | ok p =>
      obtain ⟨lc, cd1⟩ := p
      rw [h1, okBind] at h
      cases h2 : linearize rhs rr cd1 with
      | error e => rw [h2, errBind] at h; exact Except.noConfusion h
      | ok p2 =>
        obtain ⟨rc, cd2⟩ := p2
        rw [h2, okBind] at h
        simp at h
        obtain ⟨-, hcd⟩ := h
        subst hcd
        obtain ⟨hf1, hv1⟩ := ihl rr cd lc cd1 h1
        obtain ⟨hf2, hv2⟩ := ihr rr cd1 rc cd2 h2
        exact ⟨hf2.trans hf1, hv2.trans hv1⟩

theorem compile_expression_cd (e : FlatExpr) (rr : Register) (cd : CompileData)
    (code : List Opcode) (cd' : CompileData)
    (h : compile_expression e rr cd = .ok (code, cd')) :
    cd'.first_unused_register = cd.first_unused_register ∧
    cd'.variable_lookup = cd.variable_lookup := by
  simp only [compile_expression] at h
  cases h1 : linearize (climbTree e) rr cd with
  | error e2 => rw [h1, errBind] at h; exact Except.noConfusion h
  | ok p =>
    obtain ⟨code0, cd0⟩ := p
    rw [h1, okBind] at h
    cases h2 : fixupList code0 rr with
    | error e2 => rw [h2, errBind] at h; exact Except.noConfusion h
    | ok p2 =>
      obtain ⟨fixed, cur⟩ := p2
      rw [h2, okBind] at h
      simp at h
      obtain ⟨-, hcd⟩ := h
      subst hcd
      exact linearize_cd (climbTree e) rr cd code0 cd0 h1

theorem compile_comparison_struct (c : Comparison) (cd : CompileData)
    (res : List Opcode) (cd1 : CompileData)
    (h : compile_comparison c cd = .ok (res, cd1)) :
    cd1.first_unused_register = cd.first_unused_register ∧
    ∃ pre, res = pre ++ [cmpOpcode c.op cd.first_unused_register
      cd.first_unused_register (cd.first_unused_register + 1)] := by
  simp only [compile_comparison] at h
  cases h1 : compile_expression c.lhs cd.first_unused_register cd with
  | error e => rw [h1, errBind] at h; exact Except.noConfusion h
  | ok p =>
    obtain ⟨lhs_val, cda⟩ := p
    rw [h1, okBind] at h
    cases h2 : compile_expression c.rhs (cda.first_unused_register + 1) cda with
    | error e => rw [h2, errBind] at h; exact Except.noConfusion h
    | ok p2 =>
      obtain ⟨rhs_val, cdb⟩ := p2
      rw [h2, okBind] at h
      simp at h
      obtain ⟨hres, hcd⟩ := h
      subst hcd
      have hfa := (compile_expression_cd _ _ _ _ _ h1).1
      have hfb := (compile_expression_cd _ _ _ _ _ h2).1
      have hfur : cdb.first_unused_register = cd.first_unused_register := hfb.trans hfa
      refine ⟨hfur, ⟨lhs_val ++ rhs_val, ?_⟩⟩
      rw [← hres, hfur, List.append_assoc]

/-- Claim C10: the jumps emitted for while loops and if statements test
the register equal to the first-unused-register cursor as it stands
after the body has been compiled, while the comparison instruction's
destination is the cursor as it stood before the body; the two register
operands coincide exactly when compiling the body did not advance the
cursor. -/
theorem C10_theorem : ∀ (cond : Comparison) (body : List Stmt) (cd : CompileData),
    (∀ code cd2, compile_stmt (.whileLoop cond body) cd = .ok (code, cd2) →
      ∃ res cd1 inner,
        compile_comparison cond cd = .ok (res, cd1) ∧
        compile_program body cd1 = .ok (inner, cd2) ∧
        cd1.first_unused_register = cd.first_unused_register ∧
        code = res ++
          [.JumpIfFalseRelative cd2.first_unused_register
            ((inner.length : Int) + (res.length : Int) + 2)] ++ inner ++ res ++
          [.JumpIfTrueRelative cd2.first_unused_register
            (-((inner.length : Int) + (res.length : Int) + 1))] ∧
        (∃ pre, res = pre ++ [cmpOpcode cond.op cd.first_unused_register
          cd.first_unused_register (cd.first_unused_register + 1)]) ∧
        (cd2.first_unused_register = cd.first_unused_register ↔
          cd2.first_unused_register = cd1.first_unused_register)) ∧
    (∀ code cd2, compile_stmt (.ifStatement cond body) cd = .ok (code, cd2) →
      ∃ res cd1 inner,
        compile_comparison cond cd = .ok (res, cd1) ∧
        compile_program body cd1 = .ok (inner, cd2) ∧
        cd1.first_unused_register = cd.first_unused_register ∧
        code = res ++
          [.JumpIfFalseRelative cd2.first_unused_register (inner.length : Int)] ++ inner ∧
        (∃ pre, res = pre ++ [cmpOpcode cond.op cd.first_unused_register
          cd.first_unused_register (cd.first_unused_register + 1)]) ∧
        (cd2.first_unused_register = cd.first_unused_register ↔
          cd2.first_unused_register = cd1.first_unused_register)) := by
  intro cond body cd
  constructor
  · intro code cd2 h
    simp only [compile_stmt] at h
    cases h1 : compile_comparison cond cd with
    | error e => rw [h1, errBind] at h; exact Except.noConfusion h
    | ok p =>
      obtain ⟨res, cd1⟩ := p
      rw [h1, okBind] at h
      cases h2 : compile_program body cd1 with
      | error e => rw [h2, errBind] at h; exact Except.noConfusion h
      | ok p2 =>
        obtain ⟨inner, cd2'⟩ := p2
        rw [h2, okBind] at h
        simp at h
        obtain ⟨hcode, hcd⟩ := h
        subst hcd
        obtain ⟨hfur, hpre⟩ := compile_comparison_struct cond cd res cd1 h1
        refine ⟨res, cd1, inner, rfl, h2, hfur, ?_, hpre, by rw [hfur]⟩
        rw [← hcode]
        simp [List.append_assoc]
  · intro code cd2 h
    simp only [compile_stmt] at h
    cases h1 : compile_comparison cond cd with
    | error e => rw [h1, errBind] at h; exact Except.noConfusion h
    | ok p =>
      obtain ⟨res, cd1⟩ := p
      rw [h1, okBind] at h
      cases h2 : compile_program body cd1 with
      | error e => rw [h2, errBind] at h; exact Except.noConfusion h
      | ok p2 =>
        obtain ⟨inner, cd2'⟩ := p2
        rw [h2, okBind] at h
        simp at h
        obtain ⟨hcode, hcd⟩ := h
        subst hcd
        obtain ⟨hfur, hpre⟩ := compile_comparison_struct cond cd res cd1 h1
        refine ⟨res, cd1, inner, rfl, h2, hfur, ?_, hpre, by rw [hfur]⟩
        rw [← hcode]
        simp [List.append_assoc]

/-- Claim C10 witness: compiling `while (1 < 2) do x = 5` from a fresh
compile state; the body binds x and advances the cursor to 1, so the
jumps test register 1 while the comparison wrote register 0. -/
theorem C10_witness :
    ∃ res cd1 inner,
      compile_comparison ⟨⟨.number 1, []⟩, .lessThan, ⟨.number 2, []⟩⟩
        build_compile_data = .ok (res, cd1) ∧
      compile_program [.assignment (.ident "x") ⟨.number 5, []⟩] cd1 =
        .ok (inner, c10cd) ∧
      cd1.first_unused_register = build_compile_data.first_unused_register ∧
      (∃ pre, res = pre ++ [.ComparisonLessThan 0 0 1]) := by
  obtain ⟨res, cd1, inner, h1, h2, h3, -, hpre, -⟩ :=
    (C10_theorem ⟨⟨.number 1, []⟩, .lessThan, ⟨.number 2, []⟩⟩
      [.assignment (.ident "x") ⟨.number 5, []⟩] build_compile_data).1
      [.LoadLiteral 0 1, .LoadLiteral 1 2, .ComparisonLessThan 0 0 1,
        .JumpIfFalseRelative 1 6, .LoadLiteral 0 5,
        .LoadLiteral 0 1, .LoadLiteral 1 2, .ComparisonLessThan 0 0 1,
        .JumpIfTrueRelative 1 (-5)] c10cd rfl
  exact ⟨res, cd1, inner, h1, h2, h3, hpre⟩

/-- Claim C8 witness: assigning index 1 of a one-element array is the
fatal bounds error. -/
theorem C8_witness :
    execOp (.ArrayAssignment 0 1 2)
      [] (setReg (setReg build_state 0 (.Array [.Number (Q.ofInt 7)]))
        1 (.Number (Q.ofInt 1))) = .error "index out of bounds" := by
  have h := (C8_theorem []
    (setReg (setReg build_state 0 (.Array [.Number (Q.ofInt 7)])) 1 (.Number (Q.ofInt 1)))
    0 1 2 [.Number (Q.ofInt 7)] (Q.ofInt 1) (by decide) (by decide)).1 (by decide)
  exact h

/-- Claim C6 counterexample: the original universal claim fails inside
its own quantified domain — the literal-arithmetic assignment
`x = 32768` has mathematical value `32768`, but compiling its
right-hand side panics in the front end's `parse::<i16>().unwrap()`
before any instruction is emitted, so no compiled-then-executed result
exists to equal anything.  (Rounding gives further failures inside the
domain: `1 / 3` and `3 ^ 40` are not `f64`-exact, so the real run
leaves rounded doubles, not the mathematical values.) -/
theorem C6_counterexample :
    FlatExpr.mathValue ⟨.number 32768, []⟩ = 32768 ∧
    compile_value_checked (.number 32768) 0 build_compile_data =
      .error "called `Result::unwrap()` on an `Err` value: ParseIntError" := by
  constructor
  · norm_num [FlatExpr.mathValue, climbTree, climbAux, Expr.evalRat]
  · rfl

/-- Claim C6 (amended): for every program of literal-arithmetic
assignments whose literal tokens are within the `i16` parse range and
whose expressions evaluate with every intermediate value an `f64`-exact
integer (the domain on which the source's `f64` arithmetic is exact and
its literal parse total — outside it the run rounds, e.g. `1 / 3` and
`3 ^ 40`, or aborts at `parse::<i16>().unwrap()`, e.g. `32768`), the
compiled-then-executed result agrees with the mathematical value of
each expression under the precedence tiers add/subtract below
multiply/divide below power, with power right-associative: after the
run every bound name's register holds a number whose rational value is
the name's last right-hand side precedence-climbed and evaluated over
`ℚ`; moreover on in-range literals the `i16`-checked literal
compilation agrees with the pipeline's; in particular `2 + 3 * 4` has
mathematical value `14` and `2 ^ 3 ^ 2` (right-associative) has
mathematical value `512`, and the one-statement programs
`x = 2 + 3 * 4` and `x = 2 ^ 3 ^ 2` (all of whose values are in-range
`f64`-exact integers) leave `Number 14` resp. `Number 512` in x's
register. -/
theorem C6_theorem (P : List (String × FlatExpr))
    (hlit : ∀ p ∈ P, (p.2 : FlatExpr).allLit)
    (hrange : ∀ p ∈ P, (p.2 : FlatExpr).litsInRange)
    (hexact : ∀ p ∈ P, (climbTree p.2).allExact) :
    (∀ (n : Int), -32768 ≤ n → n ≤ 32767 → ∀ (rr : Register) (cd : CompileData),
      compile_value_checked (.number n) rr cd = compile_value (.number n) rr cd) ∧
    (∃ code cd',
      compile_program (P.map mkAssign) build_compile_data = .ok (code, cd') ∧
      ∀ fuel, code.length < fuel →
      ∃ regs', execute_program fuel code cd' = .done regs' ∧
        ∀ name r, cd'.variable_lookup.lookup name = some r →
          ∃ q, regs' r = .Number q ∧ specLookupRat P name = some q.toRat) ∧
    FlatExpr.mathValue c6sum = 14 ∧ FlatExpr.mathValue c6pow = 512 ∧
    (∃ code cd',
      compile_program [mkAssign ("x", c6sum)] build_compile_data = .ok (code, cd') ∧
      cd'.variable_lookup.lookup "x" = some 0 ∧
      resultReg (execute_program 20 code cd') 0 = some (.Number (Q.ofInt 14))) ∧
    (∃ code cd',
      compile_program [mkAssign ("x", c6pow)] build_compile_data = .ok (code, cd') ∧
      cd'.variable_lookup.lookup "x" = some 0 ∧
      resultReg (execute_program 20 code cd') 0 = some (.Number (Q.ofInt 512))) := by
  have hinv0 : Inv [] build_compile_data build_state :=
    ⟨fun name r h => by simp [build_compile_data, List.lookup] at h,
     fun n1 n2 r h1 h2 => by simp [build_compile_data, List.lookup] at h1,
     fun name r h => by simp [build_compile_data, List.lookup] at h⟩
  obtain ⟨code, cd', hc, hnj, hct, regs', hex, hinv'⟩ :=
    prog_fold P [] build_compile_data build_state [] hinv0 hlit
  simp only [List.nil_append] at hinv'
  refine ⟨?_, ⟨code, cd', hc, ?_⟩, ?_, ?_, ?_, ?_⟩
  · intro n h1 h2 rr cd
    simp only [compile_value_checked, compile_value]
    rw [show parse_i16 n = .ok n from by rw [parse_i16, if_pos ⟨h1, h2⟩], okBind]
  · intro fuel hfuel
    refine ⟨regs', ?_, ?_⟩
    · have h := runAux_of_execList code [] [] build_state regs' fuel hnj hfuel hex
      simpa [execute_program, hct, build_compile_data] using h
    · intro name r hr
      obtain ⟨q, hq, hregs⟩ := hinv'.2.2 name r hr
      refine ⟨q, hregs, ?_⟩
      rw [specLookupRat_eq P hlit name, hq]
      rfl
  · have h1 := (evalQ_wf_toRat (climbTree c6sum) (climbTree_lit c6sum
      ⟨trivial, by
        intro q hq
        simp only [c6sum, List.mem_cons, List.not_mem_nil, or_false] at hq
        rcases hq with h | h <;> subst h <;> trivial⟩)).2
    have h2 : (climbTree c6sum).evalQ = Q.ofInt 14 := by decide
    rw [FlatExpr.mathValue, ← h1, h2, Q.toRat_ofInt]
    norm_num
  · have h1 := (evalQ_wf_toRat (climbTree c6pow) (climbTree_lit c6pow
      ⟨trivial, by
        intro q hq
        simp only [c6pow, List.mem_cons, List.not_mem_nil, or_false] at hq
        rcases hq with h | h <;> subst h <;> trivial⟩)).2
    have h2 : (climbTree c6pow).evalQ = Q.ofInt 512 := by decide
    rw [FlatExpr.mathValue, ← h1, h2, Q.toRat_ofInt]
    norm_num
  · exact ⟨_, _, rfl, by decide, by decide⟩
  · exact ⟨_, _, rfl, by decide, by decide⟩

/-- Claim C6 witness: the two-assignment program `x = 2 + 3 * 4;
y = 2 ^ 3 ^ 2` is all-literal, its tokens are in the `i16` range, all
its intermediate values are `f64`-exact integers, and the amended
universal theorem applies to it. -/
theorem C6_witness :
    (∀ p ∈ c6prog, (p.2 : FlatExpr).allLit) ∧
    (∀ p ∈ c6prog, (p.2 : FlatExpr).litsInRange) ∧
    (∀ p ∈ c6prog, (climbTree p.2).allExact) ∧
    ((∀ (n : Int), -32768 ≤ n → n ≤ 32767 → ∀ (rr : Register) (cd : CompileData),
      compile_value_checked (.number n) rr cd = compile_value (.number n) rr cd) ∧
    (∃ code cd',
      compile_program (c6prog.map mkAssign) build_compile_data = .ok (code, cd') ∧
      ∀ fuel, code.length < fuel →
      ∃ regs', execute_program fuel code cd' = .done regs' ∧
        ∀ name r, cd'.variable_lookup.lookup name = some r →
          ∃ q, regs' r = .Number q ∧ specLookupRat c6prog name = some q.toRat) ∧
    FlatExpr.mathValue c6sum = 14 ∧ FlatExpr.mathValue c6pow = 512 ∧
    (∃ code cd',
      compile_program [mkAssign ("x", c6sum)] build_compile_data = .ok (code, cd') ∧
      cd'.variable_lookup.lookup "x" = some 0 ∧
      resultReg (execute_program 20 code cd') 0 = some (.Number (Q.ofInt 14))) ∧
    (∃ code cd',
      compile_program [mkAssign ("x", c6pow)] build_compile_data = .ok (code, cd') ∧
      cd'.variable_lookup.lookup "x" = some 0 ∧
      resultReg (execute_program 20 code cd') 0 = some (.Number (Q.ofInt 512)))) :=
  ⟨by
    intro p hp
    simp only [c6prog, List.mem_cons, List.not_mem_nil, or_false] at hp
    rcases hp with h | h <;> subst h <;>
      exact ⟨trivial, by
        intro q hq
        simp only [c6sum, c6pow, List.mem_cons, List.not_mem_nil, or_false] at hq
        rcases hq with h2 | h2 <;> subst h2 <;> trivial⟩,
   by decide, by decide,
   C6_theorem c6prog
     (by
      intro p hp
      simp only [c6prog, List.mem_cons, List.not_mem_nil, or_false] at hp
      rcases hp with h | h <;> subst h <;>
        exact ⟨trivial, by
          intro q hq
          simp only [c6sum, c6pow, List.mem_cons, List.not_mem_nil, or_false] at hq
          rcases hq with h2 | h2 <;> subst h2 <;> trivial⟩)
     (by decide) (by decide)⟩

end KevsVM
